import Mathlib

/-!
FireFly broadcast manager and token-pool confirmation

A shallow embedding of `internal/broadcast/broadcast_manager.go` together with
the plugin interfaces it drives.  Plugins are deterministic state machines over
an arbitrary state type `σ`; every plugin call is appended to a log with its
outcome, so that the order, the number and the arguments of the calls can be
stated.

The file has three layers:

* the manager itself (`NewBroadcastManager`, `dispatchBatch`,
  `submitTXAndUpdateDB`, `BroadcastMessage`) over arbitrary plugins;
* the event manager's `TokenPoolCreated`, whose code is not part of the sources
  and is modelled from the specification;
* a persistence plugin modelled as an idempotent upsert store, used for the
  statements about what is durably stored after a dispatch.
-/

set_option linter.unusedVariables false

namespace Firefly

/-! ## Data model -/

abbrev UUID := Nat
abbrev Bytes32 := Nat
abbrev Bytes := List Nat

/-- Errors that travel through the manager: the two i18n messages built by the
manager itself, the distinguished `database.IDMismatch` value, and any other
error value a plugin may return. -/
inductive Err where
  | MsgInitializationNilDepError
  | MsgSerializationFailed (cause : Err)
  | IDMismatch
  | other (msg : String)
deriving DecidableEq, Repr

inductive MessageType where
  | MessageTypeDefinition
  | MessageTypeBroadcast
  | MessageTypePrivate
deriving DecidableEq, Repr

inductive TransactionType where
  | TransactionTypePin
deriving DecidableEq, Repr

inductive TransactionStatus where
  | TransactionStatusPending
  | TransactionStatusConfirmed
  | TransactionStatusFailed
deriving DecidableEq, Repr

inductive OpType where
  | OpTypeBlockchainBatchPin
  | OpTypePublicStorageBatchBroadcast
deriving DecidableEq, Repr

inductive OpStatus where
  | OpStatusPending
  | OpStatusSucceeded
  | OpStatusFailed
deriving DecidableEq, Repr

structure MessageHeader where
  ID : Option UUID
  Namespace : String
deriving DecidableEq, Repr

structure Message where
  Header : MessageHeader
  Hash : Option Bytes32
deriving DecidableEq, Repr

structure TransactionRef where
  ID : Option UUID
deriving DecidableEq, Repr

structure BatchPayload where
  TX : TransactionRef
  Messages : List Message
deriving DecidableEq, Repr

structure Batch where
  ID : Option UUID
  Namespace : String
  Author : String
  PayloadRef : Option Bytes32
  Payload : BatchPayload
deriving DecidableEq, Repr

structure TransactionSubject where
  Typ : TransactionType
  Namespace : String
  Author : String
  Batch : Option UUID
deriving DecidableEq, Repr

structure Transaction where
  ID : Option UUID
  Subject : TransactionSubject
  Hash : Bytes32
  Created : Nat
  Status : TransactionStatus
deriving DecidableEq, Repr

/-- The `blockchain.BroadcastBatch` argument of `SubmitBroadcastBatch`. -/
structure BroadcastBatch where
  TransactionID : Option UUID
  BatchID : Option UUID
  BatchPaylodRef : Option Bytes32
deriving DecidableEq, Repr

/-- Modelled from the spec: the `fftypes.Operation` record is not part of the
sources.  It carries the identity of the record, the owning plugin, the
plugin-specific tracking id, the associated message, the operation type, the
status and the recipient argument of the constructor call. -/
structure Operation where
  ID : Option UUID × OpType
  Plugin : String
  BackendID : String
  Namespace : String
  Message : Option UUID
  Typ : OpType
  Status : OpStatus
  Recipient : String
deriving DecidableEq, Repr

/-- Modelled from the spec: `fftypes.NewMessageOp` is not part of the sources.
It builds the operation record for one message from exactly the arguments the
call site passes (plugin, backend id, message, type, status, recipient).  The
identity it gives the record is stable: there is one operation per pair of a
message and a delegated action, so the identity is that pair. -/
def NewMessageOp (plugin : String) (backendID : String) (msg : Message)
    (opType : OpType) (opStatus : OpStatus) (recipient : String) : Operation :=
  { ID := (msg.Header.ID, opType)
    Plugin := plugin
    BackendID := backendID
    Namespace := msg.Header.Namespace
    Message := msg.Header.ID
    Typ := opType
    Status := opStatus
    Recipient := recipient }

inductive EventType where
  | EventTypePoolConfirmed
  | EventTypePoolRejected
deriving DecidableEq, Repr

structure TokenPool where
  ID : Option UUID
  Namespace : String
  Name : String
  ProtocolID : String
deriving DecidableEq, Repr

/-- Modelled from the spec: the `fftypes.Event` record is not part of the
sources.  It carries the event type, the reference to the entity and the
namespace. -/
structure Event where
  Typ : EventType
  Namespace : String
  Reference : Option UUID
deriving DecidableEq, Repr

/-- Modelled from the spec: `fftypes.NewEvent` is not part of the sources. -/
def NewEvent (t : EventType) (ns : String) (ref : Option UUID) : Event :=
  { Typ := t, Namespace := ns, Reference := ref }

/-- An update built by `BatchQueryFactory.NewUpdate(ctx).Set(field, value)`. -/
structure Update where
  sets : List (String × Option Bytes32)
deriving DecidableEq, Repr

def Update.Set (field : String) (value : Option Bytes32) : Update :=
  { sets := [(field, value)] }

/-! ## Plugin calls and the call log -/

/-- A call made on one of the plugins, with its arguments. -/
inductive Call where
  | PublishData (payload : Bytes)
  | UpsertTransaction (tx : Transaction) (allowExisting : Bool)
  | UpdateBatch (id : Option UUID) (update : Update)
  | SubmitBroadcastBatch (identity : String) (batch : BroadcastBatch)
  | UpsertOperation (op : Operation)
  | UpsertMessage (msg : Message) (allowExisting : Bool)
  | UpsertTokenPool (pool : TokenPool) (allowExisting : Bool)
  | InsertEvent (event : Event)
deriving DecidableEq, Repr

/-- What a plugin call returned. -/
inductive Ret where
  | failed (e : Err)
  | done
  | published (payloadRef : Option Bytes32) (publicstorageID : String)
  | submitted (trackingID : String)
deriving DecidableEq, Repr

/-- One entry of the log: a plugin call with its outcome, or the entry of the
callback of `RunAsGroup`. -/
inductive Step where
  | plugin (c : Call) (r : Ret)
  | enterGroup
deriving DecidableEq, Repr

/-- The methods of `database.Plugin` that are driven here, as state
transformers on the plugin state `σ`.  `Rollback snapshot current` is what
leaving an atomic group with an error does to the state. -/
structure DatabasePlugin (σ : Type) where
  UpsertTransaction : Transaction → Bool → σ → Option Err × σ
  UpdateBatch : Option UUID → Update → σ → Option Err × σ
  UpsertOperation : Operation → σ → Option Err × σ
  UpsertMessage : Message → Bool → σ → Option Err × σ
  UpsertTokenPool : TokenPool → Bool → σ → Option Err × σ
  InsertEvent : Event → σ → Option Err × σ
  Rollback : σ → σ → σ

/-- The methods of `blockchain.Plugin` that are driven here.
`SubmitBroadcastBatch` returns both its Go results. -/
structure BlockchainPlugin (σ : Type) where
  Name : String
  SubmitBroadcastBatch : String → BroadcastBatch → σ → (String × Option Err) × σ

/-- The methods of `publicstorage.Plugin` that are driven here.  `PublishData`
returns all three of its Go results, the error included, because the caller
assigns them before testing the error. -/
structure PublicstoragePlugin (σ : Type) where
  Name : String
  PublishData : Bytes → σ → (Option Bytes32 × String × Option Err) × σ

structure broadcastManager (σ κ : Type) where
  database : DatabasePlugin σ
  blockchain : BlockchainPlugin σ
  publicstorage : PublicstoragePlugin σ
  batch : κ

/-- The plugin state together with the log of the calls made so far. -/
structure World (σ : Type) where
  st : σ
  log : List Step

def Ret.ofErr : Option Err → Ret
  | none => Ret.done
  | some e => Ret.failed e

/-- Run a database call returning only an error, and log it. -/
def World.db {σ : Type} (w : World σ) (c : Call) (f : σ → Option Err × σ) :
    Option Err × World σ :=
  let r := f w.st
  (r.1, { st := r.2, log := w.log ++ [Step.plugin c (Ret.ofErr r.1)] })

/-- The ambient functions the manager reads: the JSON encoder, the subject
hash, the clock and the message sealing of `fftypes`. -/
structure Ambient where
  Marshal : Batch → Except Err Bytes
  SubjectHash : TransactionSubject → Bytes32
  Now : Nat
  Seal : Message → Message × Option Err

/-! ## The broadcast manager -/

/-- Modelled from the spec: `database.RunAsGroup` is a method of the persistence
plugin whose code is not part of the sources.  It executes the callback once
inside one atomic unit of work: the writes are kept when the callback returns
no error, and the plugin state is restored from the snapshot taken at entry
when it returns one; the callback's result is returned. -/
def RunAsGroup {σ κ : Type} (bm : broadcastManager σ κ)
    (fn : World σ → Option Err × World σ) (w : World σ) : Option Err × World σ :=
  match fn { st := w.st, log := w.log ++ [Step.enterGroup] } with
  | (none, w1) => (none, w1)
  | (some e, w1) => (some e, { st := bm.database.Rollback w.st w1.st, log := w1.log })

/-- The loop of `submitTXAndUpdateDB` that stores the operations for each
message. -/
def storeOperations {σ κ : Type} (bm : broadcastManager σ κ)
    (blockchainTrackingID publicstorageID : String) :
    List Message → World σ → Option Err × World σ
  | [], w => (none, w)
  | msg :: rest, w =>
    let op := NewMessageOp bm.blockchain.Name blockchainTrackingID msg
      OpType.OpTypeBlockchainBatchPin OpStatus.OpStatusPending ""
    match w.db (Call.UpsertOperation op) (bm.database.UpsertOperation op) with
    | (some err, w1) => (some err, w1)
    | (none, w1) =>
      let op := NewMessageOp bm.publicstorage.Name publicstorageID msg
        OpType.OpTypePublicStorageBatchBroadcast OpStatus.OpStatusSucceeded ""
      match w1.db (Call.UpsertOperation op) (bm.database.UpsertOperation op) with
      | (some err, w2) => (some err, w2)
      | (none, w2) => storeOperations bm blockchainTrackingID publicstorageID rest w2

/-- The transaction record `submitTXAndUpdateDB` derives from a batch. -/
def batchTransaction (A : Ambient) (batch : Batch) : Transaction :=
  let subject : TransactionSubject :=
    { Typ := TransactionType.TransactionTypePin
      Namespace := batch.Namespace
      Author := batch.Author
      Batch := batch.ID }
  { ID := batch.Payload.TX.ID
    Subject := subject
    Hash := A.SubjectHash subject
    Created := A.Now
    Status := TransactionStatus.TransactionStatusPending }

def submitTXAndUpdateDB {σ κ : Type} (bm : broadcastManager σ κ) (A : Ambient) (batch : Batch)
    (payloadRef : Option Bytes32) (publicstorageID : String) (w : World σ) :
    Option Err × World σ :=
  let tx := batchTransaction A batch
  match w.db (Call.UpsertTransaction tx false) (bm.database.UpsertTransaction tx false) with
  | (some err, w1) => (some err, w1)
  | (none, w1) =>
    let update := Update.Set "payloadref" payloadRef
    match w1.db (Call.UpdateBatch batch.ID update) (bm.database.UpdateBatch batch.ID update) with
    | (some err, w2) => (some err, w2)
    | (none, w2) =>
      let bb : BroadcastBatch :=
        { TransactionID := batch.Payload.TX.ID
          BatchID := batch.ID
          BatchPaylodRef := batch.PayloadRef }
      let r := bm.blockchain.SubmitBroadcastBatch batch.Author bb w2.st
      match r.1.2 with
      | some err =>
        (some err, { st := r.2, log := w2.log ++
          [Step.plugin (Call.SubmitBroadcastBatch batch.Author bb) (Ret.failed err)] })
      | none =>
        storeOperations bm r.1.1 publicstorageID batch.Payload.Messages
          { st := r.2, log := w2.log ++
            [Step.plugin (Call.SubmitBroadcastBatch batch.Author bb) (Ret.submitted r.1.1)] }

/-- The result of `dispatchBatch`: the returned error, the batch as the call
leaves it (its `PayloadRef` is assigned in place), and the world. -/
structure Dispatched (σ : Type) where
  err : Option Err
  batch : Batch
  world : World σ

def dispatchBatch {σ κ : Type} (bm : broadcastManager σ κ) (A : Ambient) (batch : Batch)
    (w : World σ) : Dispatched σ :=
  match A.Marshal batch with
  | Except.error err => { err := some (Err.MsgSerializationFailed err), batch := batch, world := w }
  | Except.ok payload =>
    let r := bm.publicstorage.PublishData payload w.st
    let batch1 : Batch := { batch with PayloadRef := r.1.1 }
    let publicstorageID := r.1.2.1
    match r.1.2.2 with
    | some err =>
      { err := some err, batch := batch1,
        world := { st := r.2, log := w.log ++
          [Step.plugin (Call.PublishData payload) (Ret.failed err)] } }
    | none =>
      let g := RunAsGroup bm
        (fun w1 => submitTXAndUpdateDB bm A batch1 batch1.PayloadRef publicstorageID w1)
        { st := r.2, log := w.log ++
          [Step.plugin (Call.PublishData payload) (Ret.published r.1.1 publicstorageID)] }
      { err := g.1, batch := batch1, world := g.2 }

def BroadcastMessage {σ κ : Type} (bm : broadcastManager σ κ) (A : Ambient) (msg : Message)
    (w : World σ) : Option Err × Message × World σ :=
  let s := A.Seal msg
  match s.2 with
  | some err => (some err, s.1, w)
  | none =>
    let r := w.db (Call.UpsertMessage s.1 false) (bm.database.UpsertMessage s.1 false)
    (r.1, s.1, r.2)

/-! ## Reading the log -/

/-- The plugin call of a log entry, if it is one. -/
def Step.call : Step → Option Call
  | Step.plugin c _ => some c
  | Step.enterGroup => none

/-- A log entry that is not a failed plugin call. -/
def Step.ok : Step → Bool
  | Step.plugin _ (Ret.failed _) => false
  | _ => true

def Step.isPublishData : Step → Bool
  | Step.plugin (Call.PublishData _) _ => true
  | _ => false

/-- The operation a log entry upserts, if it is an `UpsertOperation` call. -/
def Step.upserted : Step → Option Operation
  | Step.plugin (Call.UpsertOperation op) _ => some op
  | _ => none

/-- The entries a run appended to the log of the world it started from. -/
def stepsSince {σ : Type} (w w1 : World σ) : List Step :=
  w1.log.drop w.log.length

/-- The two operations `submitTXAndUpdateDB` builds for one message. -/
def messageOps {σ κ : Type} (bm : broadcastManager σ κ)
    (blockchainTrackingID publicstorageID : String) (msg : Message) : List Operation :=
  [ NewMessageOp bm.blockchain.Name blockchainTrackingID msg
      OpType.OpTypeBlockchainBatchPin OpStatus.OpStatusPending "",
    NewMessageOp bm.publicstorage.Name publicstorageID msg
      OpType.OpTypePublicStorageBatchBroadcast OpStatus.OpStatusSucceeded "" ]

/-- The log of a loop over the messages in which every upsert succeeds. -/
def opSteps {σ κ : Type} (bm : broadcastManager σ κ)
    (blockchainTrackingID publicstorageID : String) : List Message → List Step
  | [] => []
  | msg :: rest =>
    (messageOps bm blockchainTrackingID publicstorageID msg).map
        (fun op => Step.plugin (Call.UpsertOperation op) Ret.done)
      ++ opSteps bm blockchainTrackingID publicstorageID rest

/-- The log of an atomic group in which every call succeeds, for a batch whose
payload reference is `ref`. -/
def groupSteps {σ κ : Type} (bm : broadcastManager σ κ) (A : Ambient) (batch : Batch)
    (ref : Option Bytes32) (publicstorageID blockchainTrackingID : String) : List Step :=
  [ Step.enterGroup,
    Step.plugin (Call.UpsertTransaction (batchTransaction A batch) false) Ret.done,
    Step.plugin (Call.UpdateBatch batch.ID (Update.Set "payloadref" ref)) Ret.done,
    Step.plugin (Call.SubmitBroadcastBatch batch.Author
      { TransactionID := batch.Payload.TX.ID, BatchID := batch.ID, BatchPaylodRef := ref })
      (Ret.submitted blockchainTrackingID) ]
    ++ opSteps bm blockchainTrackingID publicstorageID batch.Payload.Messages

/-- How a run ends: with no error after calls that all succeeded, or with the
error of its last call, the calls before it having succeeded. -/
def Shape (err : Option Err) (steps : List Step) : Prop :=
  match err with
  | none => ∀ s ∈ steps, s.ok = true
  | some e => ∃ pre c, steps = pre ++ [Step.plugin c (Ret.failed e)] ∧ ∀ s ∈ pre, s.ok = true

/-! ## Construction -/

structure BatchOptions where
  BatchMaxSize : Nat
  BatchTimeout : Nat
  DisposeTimeout : Nat
deriving DecidableEq, Repr

/-- The configuration values `NewBroadcastManager` reads. -/
structure Config where
  BroadcastBatchSize : Nat
  BroadcastBatchTimeout : Nat
  BroadcastBatchAgentTimeout : Nat
deriving DecidableEq, Repr

/-- One `RegisterDispatcher` call made on the batch manager. -/
structure Registration (σ : Type) where
  msgType : MessageType
  handler : Batch → World σ → Dispatched σ
  options : BatchOptions

/-- The result of `NewBroadcastManager`: the manager and the error it returns,
and the `RegisterDispatcher` calls it made on the batch manager, in order. -/
structure Constructed (σ κ : Type) where
  manager : Option (broadcastManager σ κ)
  err : Option Err
  registered : List (Registration σ)

def NewBroadcastManager {σ κ : Type} (cfg : Config) (A : Ambient)
    (di : Option (DatabasePlugin σ)) (bi : Option (BlockchainPlugin σ))
    (pi : Option (PublicstoragePlugin σ)) (ba : Option κ) : Constructed σ κ :=
  match di, bi, ba, pi with
  | some di, some bi, some ba, some pi =>
    let bm : broadcastManager σ κ :=
      { database := di, blockchain := bi, publicstorage := pi, batch := ba }
    let bo : BatchOptions :=
      { BatchMaxSize := cfg.BroadcastBatchSize
        BatchTimeout := cfg.BroadcastBatchTimeout
        DisposeTimeout := cfg.BroadcastBatchAgentTimeout }
    { manager := some bm
      err := none
      registered :=
        [ { msgType := MessageType.MessageTypeBroadcast, handler := dispatchBatch bm A,
            options := bo },
          { msgType := MessageType.MessageTypeDefinition, handler := dispatchBatch bm A,
            options := bo } ] }
  | _, _, _, _ =>
    { manager := none, err := some Err.MsgInitializationNilDepError, registered := [] }

/-! ## Token pool confirmation -/

/-- Modelled from the spec: `TokenPoolCreated` of the event manager is not part
of the sources, only its tests are.  Per the spec, a pool with a missing
namespace or a missing name is rejected without reaching the upsert; otherwise
the pool is upserted with `allowExisting = false`; an identity mismatch is a
rejection, any other upsert error is returned as it is, and a successful upsert
is a confirmation.  A rejection is a normal, non-error outcome: the call inserts
one pool-rejected event referencing the pool's identity and namespace and
returns success.  A confirmation inserts one pool-confirmed event referencing
the pool's identity and namespace, and the result of that insert is the result
of the call. -/
def TokenPoolCreated {σ : Type} (database : DatabasePlugin σ) (pool : TokenPool)
    (protocolTxID : String) (additionalInfo : List (String × String)) (w : World σ) :
    Option Err × World σ :=
  let rejected := NewEvent EventType.EventTypePoolRejected pool.Namespace pool.ID
  if pool.Namespace = "" then
    (none, (w.db (Call.InsertEvent rejected) (database.InsertEvent rejected)).2)
  else if pool.Name = "" then
    (none, (w.db (Call.InsertEvent rejected) (database.InsertEvent rejected)).2)
  else
    match w.db (Call.UpsertTokenPool pool false) (database.UpsertTokenPool pool false) with
    | (some Err.IDMismatch, w1) =>
      (none, (w1.db (Call.InsertEvent rejected) (database.InsertEvent rejected)).2)
    | (some err, w1) => (some err, w1)
    | (none, w1) =>
      let confirmed := NewEvent EventType.EventTypePoolConfirmed pool.Namespace pool.ID
      w1.db (Call.InsertEvent confirmed) (database.InsertEvent confirmed)

/-- The event a log entry inserts, if it is an `InsertEvent` call. -/
def Step.inserted : Step → Option Event
  | Step.plugin (Call.InsertEvent ev) _ => some ev
  | _ => none

def Step.isUpsertTokenPool : Step → Bool
  | Step.plugin (Call.UpsertTokenPool _ _) _ => true
  | _ => false

/-! ## A persistence plugin: the idempotent upsert store -/

/-- Insert-or-replace keyed on `key`: the first record with the key of `x` is
replaced by `x`, and `x` is appended when there is none. -/
def upsertBy {α β : Type} [DecidableEq β] (key : α → β) (x : α) : List α → List α
  | [] => [x]
  | y :: ys => if key y = key x then x :: ys else y :: upsertBy key x ys

/-- Modelled from the spec: the records the persistence plugin holds.  The
plugin's code is not part of the sources. -/
structure Store where
  transactions : List Transaction
  batches : List Batch
  operations : List Operation
  messages : List Message
  pools : List TokenPool
  events : List Event
deriving DecidableEq, Repr

/-- Modelled from the spec: `UpsertTransaction` of the persistence plugin,
idempotent and keyed on the transaction identity.  With `allowExisting = false`
the record must not already exist, except on idempotent replay: a stored record
with the same identity and the same subject hash is kept and the call succeeds,
one with another hash is a conflict. -/
def Store.UpsertTransaction (tx : Transaction) (allowExisting : Bool) (s : Store) :
    Option Err × Store :=
  match s.transactions.find? (fun t => t.ID = tx.ID) with
  | none => (none, { s with transactions := s.transactions ++ [tx] })
  | some old =>
    if allowExisting then
      (none, { s with transactions := upsertBy Transaction.ID tx s.transactions })
    else if old.Hash = tx.Hash then (none, s)
    else (some (Err.other "transaction exists with another hash"), s)

/-- Apply the field assignments of an update to a stored batch. -/
def Update.apply (u : Update) (b : Batch) : Batch :=
  u.sets.foldl
    (fun b kv => if kv.1 = "payloadref" then { b with PayloadRef := kv.2 } else b) b

/-- Modelled from the spec: `UpdateBatch` of the persistence plugin patches the
stored batch that has the given identity. -/
def Store.UpdateBatch (id : Option UUID) (u : Update) (s : Store) : Option Err × Store :=
  (none, { s with batches := s.batches.map (fun b => if b.ID = id then u.apply b else b) })

/-- Modelled from the spec: `UpsertOperation` of the persistence plugin,
idempotent and keyed on the operation identity. -/
def Store.UpsertOperation (op : Operation) (s : Store) : Option Err × Store :=
  (none, { s with operations := upsertBy Operation.ID op s.operations })

/-- Modelled from the spec: `UpsertMessage` of the persistence plugin,
idempotent and keyed on the message identity. -/
def Store.UpsertMessage (msg : Message) (allowExisting : Bool) (s : Store) :
    Option Err × Store :=
  match s.messages.find? (fun m => m.Header.ID = msg.Header.ID) with
  | none => (none, { s with messages := s.messages ++ [msg] })
  | some old =>
    if allowExisting then
      (none, { s with messages := upsertBy (fun m => m.Header.ID) msg s.messages })
    else if old.Hash = msg.Hash then (none, s)
    else (some (Err.other "message exists with another hash"), s)

/-- Modelled from the spec: `UpsertTokenPool` of the persistence plugin reports
the distinguished identity mismatch when a stored pool with the same namespace
and name has another identity. -/
def Store.UpsertTokenPool (pool : TokenPool) (allowExisting : Bool) (s : Store) :
    Option Err × Store :=
  match s.pools.find? (fun p => p.Namespace = pool.Namespace ∧ p.Name = pool.Name) with
  | none => (none, { s with pools := s.pools ++ [pool] })
  | some old =>
    if old.ID = pool.ID then
      (none, if allowExisting then
        { s with pools := upsertBy (fun p => (p.Namespace, p.Name)) pool s.pools } else s)
    else (some Err.IDMismatch, s)

/-- Modelled from the spec: events are append-only. -/
def Store.InsertEvent (ev : Event) (s : Store) : Option Err × Store :=
  (none, { s with events := s.events ++ [ev] })

/-- The stored operations after upserting `ops` one after the other. -/
def upsertOperations (ops stored : List Operation) : List Operation :=
  ops.foldl (fun acc op => upsertBy Operation.ID op acc) stored

/-- Lift a call on the store to the state `Store × ε`, whose second component
is the state of the ledger and of the storage. -/
def onStore {ε : Type} (f : Store → Option Err × Store) (x : Store × ε) :
    Option Err × (Store × ε) :=
  ((f x.1).1, ((f x.1).2, x.2))

/-- Modelled from the spec: the persistence plugin as an idempotent upsert store
keyed on record identity.  Leaving an atomic group with an error restores the
store of the snapshot; what the ledger and the storage did stays done. -/
def storeDatabase (ε : Type) : DatabasePlugin (Store × ε) :=
  { UpsertTransaction := fun tx allowExisting => onStore (Store.UpsertTransaction tx allowExisting)
    UpdateBatch := fun id u => onStore (Store.UpdateBatch id u)
    UpsertOperation := fun op => onStore (Store.UpsertOperation op)
    UpsertMessage := fun msg allowExisting => onStore (Store.UpsertMessage msg allowExisting)
    UpsertTokenPool := fun pool allowExisting => onStore (Store.UpsertTokenPool pool allowExisting)
    InsertEvent := fun ev => onStore (Store.InsertEvent ev)
    Rollback := fun snapshot current => (snapshot.1, current.2) }

/-- A ledger plugin over its own state `ε`, acting on `Store × ε`. -/
def BlockchainPlugin.external {ε : Type} (b : BlockchainPlugin ε) : BlockchainPlugin (Store × ε) :=
  { Name := b.Name
    SubmitBroadcastBatch := fun identity batch x =>
      ((b.SubmitBroadcastBatch identity batch x.2).1,
        (x.1, (b.SubmitBroadcastBatch identity batch x.2).2)) }

/-- A storage plugin over its own state `ε`, acting on `Store × ε`. -/
def PublicstoragePlugin.external {ε : Type} (p : PublicstoragePlugin ε) :
    PublicstoragePlugin (Store × ε) :=
  { Name := p.Name
    PublishData := fun payload x =>
      ((p.PublishData payload x.2).1, (x.1, (p.PublishData payload x.2).2)) }

/-- A broadcast manager whose persistence plugin is the upsert store, with an
arbitrary ledger and an arbitrary storage. -/
def storeManager {ε : Type} (b : BlockchainPlugin ε) (p : PublicstoragePlugin ε) :
    broadcastManager (Store × ε) Unit :=
  { database := storeDatabase ε
    blockchain := b.external
    publicstorage := p.external
    batch := () }

/-- The number of stored transactions with the given identity. -/
def Store.countTransactions (s : Store) (id : Option UUID) : Nat :=
  s.transactions.countP (fun t => t.ID = id)

/-- The number of stored operations of the given type for the given message. -/
def Store.countOperations (s : Store) (msg : Option UUID) (t : OpType) : Nat :=
  s.operations.countP (fun op => op.Message = msg ∧ op.Typ = t)

/-- The store is keyed on record identity: no two stored transactions and no
two stored operations share an identity, and every stored operation has the
identity of its message and type, as `NewMessageOp` gives it. -/
def Store.keyedOnIdentity (s : Store) : Prop :=
  (s.transactions.map Transaction.ID).Nodup ∧ (s.operations.map Operation.ID).Nodup ∧
    ∀ op ∈ s.operations, op.ID = (op.Message, op.Typ)

/-- What the upserts of a dispatch rely on in a store, for the transaction
identity `id` with subject hash `h`: at most one transaction is stored under
`id` and it has the hash `h`, no two operations share an identity, and every
operation has the identity of its message and type. -/
def Store.readyFor (s : Store) (id : Option UUID) (h : Bytes32) : Prop :=
  s.transactions.countP (fun t => t.ID = id) ≤ 1 ∧
  (∀ t ∈ s.transactions, t.ID = id → t.Hash = h) ∧
  (∀ k, s.operations.countP (fun op => op.ID = k) ≤ 1) ∧
  ∀ op ∈ s.operations, op.ID = (op.Message, op.Typ)

def Step.isExternal : Step → Bool
  | Step.plugin (Call.PublishData _) _ => true
  | Step.plugin (Call.SubmitBroadcastBatch _ _) _ => true
  | _ => false

/-- Dispatch once more what a first dispatch left: the same batch, in the
world the first dispatch ended in, at the clock reading `now`. -/
def redispatch {σ κ : Type} (bm : broadcastManager σ κ) (A : Ambient) (now : Nat)
    (first : Dispatched σ) : Dispatched σ :=
  dispatchBatch bm { A with Now := now } first.batch first.world

/-! ## Example inputs -/

/-- Example database over a counter: every call succeeds and increments the
counter, except the `UpsertOperation` made when the counter equals `failAt`. -/
def scriptedDatabase (failAt : Nat) : DatabasePlugin Nat :=
  { UpsertTransaction := fun _ _ n => (none, n + 1)
    UpdateBatch := fun _ _ n => (none, n + 1)
    UpsertOperation := fun _ n => (if n = failAt then some (Err.other "pop") else none, n + 1)
    UpsertMessage := fun _ _ n => (none, n + 1)
    UpsertTokenPool := fun _ _ n => (none, n + 1)
    InsertEvent := fun _ n => (none, n + 1)
    Rollback := fun snapshot _ => snapshot }

/-- Example ledger: the submission made when the state equals `failAt` is
refused, every other one is tracked as `tx1`. -/
def scriptedBlockchain (failAt : Nat) : BlockchainPlugin Nat :=
  { Name := "ethereum"
    SubmitBroadcastBatch := fun _ _ n =>
      (("tx1", if n = failAt then some (Err.other "pop") else none), n + 1) }

/-- Example storage: every publish succeeds with reference `77` and id `Qm1`. -/
def scriptedPublicstorage : PublicstoragePlugin Nat :=
  { Name := "ipfs"
    PublishData := fun _ n => ((some 77, "Qm1", none), n + 1) }

def scriptedManager (failAt : Nat) : broadcastManager Nat Unit :=
  { database := scriptedDatabase failAt
    blockchain := scriptedBlockchain 1000
    publicstorage := scriptedPublicstorage
    batch := () }

def exampleAmbient : Ambient :=
  { Marshal := fun b => Except.ok [b.Payload.Messages.length]
    SubjectHash := fun s => s.Namespace.length + s.Author.length
    Now := 5
    Seal := fun m => ({ m with Hash := some 9 }, none) }

/-- An encoder that rejects every batch. -/
def failingAmbient : Ambient :=
  { exampleAmbient with Marshal := fun _ => Except.error (Err.other "invalid character") }

def exampleMessage (id : UUID) : Message :=
  { Header := { ID := some id, Namespace := "ns1" }, Hash := some id }

def exampleBatch : Batch :=
  { ID := some 1
    Namespace := "ns1"
    Author := "0x12345"
    PayloadRef := none
    Payload := { TX := { ID := some 2 }, Messages := [exampleMessage 10, exampleMessage 11] } }

def emptyStore : Store :=
  { transactions := [], batches := [], operations := [], messages := [], pools := [],
    events := [] }

/-- A store that holds the example batch, not yet published. -/
def exampleStore : Store :=
  { emptyStore with batches := [exampleBatch] }

/-- A store that already holds, under the transaction identity of the example
batch, a transaction of another subject. -/
def conflictingStore : Store :=
  { exampleStore with
    transactions :=
      [ { ID := some 2
          Subject := { Typ := TransactionType.TransactionTypePin, Namespace := "ns2",
                       Author := "0x999", Batch := some 3 }
          Hash := 999
          Created := 1
          Status := TransactionStatus.TransactionStatusPending } ] }

/-- The log of the example dispatch up to the second `UpsertOperation`. -/
def stepsBeforeFailure : List Step :=
  [ Step.plugin (Call.PublishData [2]) (Ret.published (some 77) "Qm1"),
    Step.enterGroup,
    Step.plugin (Call.UpsertTransaction (batchTransaction exampleAmbient exampleBatch) false)
      Ret.done,
    Step.plugin (Call.UpdateBatch (some 1) (Update.Set "payloadref" (some 77))) Ret.done,
    Step.plugin (Call.SubmitBroadcastBatch "0x12345" ⟨some 2, some 1, some 77⟩)
      (Ret.submitted "tx1"),
    Step.plugin (Call.UpsertOperation (NewMessageOp "ethereum" "tx1" (exampleMessage 10)
      OpType.OpTypeBlockchainBatchPin OpStatus.OpStatusPending "")) Ret.done ]

/-- Example database for the token-pool tests: the upsert returns `upsert`, and
the insert of an event returns `insert`. -/
def poolDatabase (upsert insert : Option Err) : DatabasePlugin Nat :=
  { scriptedDatabase 1000 with
    UpsertTokenPool := fun _ _ n => (upsert, n + 1)
    InsertEvent := fun _ n => (insert, n + 1) }

/-- The pool of `TestTokenPoolBadNamespace`. -/
def emptyPool : TokenPool :=
  { ID := none, Namespace := "", Name := "", ProtocolID := "" }

/-- The pool of `TestTokenPoolIDMismatch` and `TestTokenPoolUpsertFail`. -/
def namedPool (id : Option UUID) : TokenPool :=
  { ID := id, Namespace := "test-ns", Name := "my-pool", ProtocolID := "" }

/-! ## The log of each function -/

theorem Shape.append {err : Option Err} {a b : List Step}
    (ha : ∀ s ∈ a, s.ok = true) (hb : Shape err b) : Shape err (a ++ b) := by
  cases err with
  | none =>
    intro s hs
    rcases List.mem_append.1 hs with h | h
    · exact ha s h
    · exact hb s h
  | some e =>
    obtain ⟨pre, c, rfl, hpre⟩ := hb
    refine ⟨a ++ pre, c, by simp, ?_⟩
    intro s hs
    rcases List.mem_append.1 hs with h | h
    · exact ha s h
    · exact hpre s h

theorem storeOperations_log {σ κ : Type} (bm : broadcastManager σ κ) (tid sid : String)
    (msgs : List Message) :
    ∀ w : World σ, ∃ steps,
      (storeOperations bm tid sid msgs w).2.log = w.log ++ steps ∧
      Shape (storeOperations bm tid sid msgs w).1 steps ∧
      steps.map Step.call <+: (opSteps bm tid sid msgs).map Step.call ∧
      ((storeOperations bm tid sid msgs w).1 = none → steps = opSteps bm tid sid msgs) := by
  induction msgs with
  | nil =>
    intro w
    exact ⟨[], by simp [storeOperations], by simp [storeOperations, Shape], by simp,
      by simp [opSteps]⟩
  | cons msg rest ih =>
    intro w
    simp only [storeOperations, World.db, opSteps, messageOps]
    generalize NewMessageOp bm.blockchain.Name tid msg
        OpType.OpTypeBlockchainBatchPin OpStatus.OpStatusPending "" = pin
    generalize NewMessageOp bm.publicstorage.Name sid msg
        OpType.OpTypePublicStorageBatchBroadcast OpStatus.OpStatusSucceeded "" = sto
    rcases h1 : bm.database.UpsertOperation pin w.st with ⟨e1, s1⟩
    cases e1 with
    | some e =>
      refine ⟨[Step.plugin (Call.UpsertOperation pin) (Ret.failed e)], by simp [Ret.ofErr],
        ⟨[], Call.UpsertOperation pin, by simp, by simp⟩, ?_, by simp⟩
      simp [Step.call, List.prefix_cons_inj]
    | none =>
      simp only []
      rcases h2 : bm.database.UpsertOperation sto s1 with ⟨e2, s2⟩
      cases e2 with
      | some e =>
        refine ⟨[Step.plugin (Call.UpsertOperation pin) Ret.done,
          Step.plugin (Call.UpsertOperation sto) (Ret.failed e)], by simp [Ret.ofErr],
          ⟨[Step.plugin (Call.UpsertOperation pin) Ret.done], Call.UpsertOperation sto,
            by simp, by simp [Step.ok]⟩, ?_, by simp⟩
        simp [Step.call, List.prefix_cons_inj]
      | none =>
        simp only []
        obtain ⟨steps, hlog, hshape, hpre, hfull⟩ := ih
          { st := s2, log := w.log ++ [Step.plugin (Call.UpsertOperation pin) (Ret.ofErr none)]
            ++ [Step.plugin (Call.UpsertOperation sto) (Ret.ofErr none)] }
        refine ⟨[Step.plugin (Call.UpsertOperation pin) Ret.done,
          Step.plugin (Call.UpsertOperation sto) Ret.done] ++ steps, ?_, ?_, ?_, ?_⟩
        · rw [hlog]; simp [Ret.ofErr]
        · exact Shape.append (by simp [Step.ok]) hshape
        · simpa [Step.call, List.prefix_cons_inj] using hpre
        · intro h
          rw [hfull h]
          simp

theorem submitTXAndUpdateDB_log {σ κ : Type} (bm : broadcastManager σ κ) (A : Ambient)
    (batch : Batch) (sid : String) (w : World σ) :
    ∃ steps tid,
      (submitTXAndUpdateDB bm A batch batch.PayloadRef sid w).2.log = w.log ++ steps ∧
      Shape (submitTXAndUpdateDB bm A batch batch.PayloadRef sid w).1 steps ∧
      (Step.enterGroup :: steps).map Step.call
        <+: (groupSteps bm A batch batch.PayloadRef sid tid).map Step.call ∧
      ((submitTXAndUpdateDB bm A batch batch.PayloadRef sid w).1 = none →
        Step.enterGroup :: steps = groupSteps bm A batch batch.PayloadRef sid tid) := by
  simp only [submitTXAndUpdateDB, World.db, groupSteps]
  generalize batchTransaction A batch = tx
  generalize Update.Set "payloadref" batch.PayloadRef = upd
  generalize BroadcastBatch.mk batch.Payload.TX.ID batch.ID batch.PayloadRef = bb
  rcases h1 : bm.database.UpsertTransaction tx false w.st with ⟨e1, s1⟩
  cases e1 with
  | some e =>
    refine ⟨[Step.plugin (Call.UpsertTransaction tx false) (Ret.failed e)], "",
      by simp [Ret.ofErr], ⟨[], Call.UpsertTransaction tx false, by simp, by simp⟩, ?_, by simp⟩
    simp [Step.call, List.prefix_cons_inj]
  | none =>
    simp only []
    rcases h2 : bm.database.UpdateBatch batch.ID upd s1 with ⟨e2, s2⟩
    cases e2 with
    | some e =>
      refine ⟨[Step.plugin (Call.UpsertTransaction tx false) Ret.done,
        Step.plugin (Call.UpdateBatch batch.ID upd) (Ret.failed e)], "",
        by simp [Ret.ofErr], ⟨[Step.plugin (Call.UpsertTransaction tx false) Ret.done],
          Call.UpdateBatch batch.ID upd, by simp, by simp [Step.ok]⟩, ?_, by simp⟩
      simp [Step.call, List.prefix_cons_inj]
    | none =>
      simp only []
      rcases h3 : bm.blockchain.SubmitBroadcastBatch batch.Author bb s2 with ⟨⟨tid, e3⟩, s3⟩
      cases e3 with
      | some e =>
        refine ⟨[Step.plugin (Call.UpsertTransaction tx false) Ret.done,
          Step.plugin (Call.UpdateBatch batch.ID upd) Ret.done,
          Step.plugin (Call.SubmitBroadcastBatch batch.Author bb) (Ret.failed e)], "",
          by simp [Ret.ofErr], ⟨[Step.plugin (Call.UpsertTransaction tx false) Ret.done,
            Step.plugin (Call.UpdateBatch batch.ID upd) Ret.done],
            Call.SubmitBroadcastBatch batch.Author bb, by simp, by simp [Step.ok]⟩, ?_, by simp⟩
        simp [Step.call, List.prefix_cons_inj]
      | none =>
        simp only []
        obtain ⟨steps, hlog, hshape, hpre, hfull⟩ := storeOperations_log bm tid sid
          batch.Payload.Messages
          { st := s3, log := w.log ++ [Step.plugin (Call.UpsertTransaction tx false)
            (Ret.ofErr none)] ++ [Step.plugin (Call.UpdateBatch batch.ID upd) (Ret.ofErr none)]
            ++ [Step.plugin (Call.SubmitBroadcastBatch batch.Author bb) (Ret.submitted tid)] }
        refine ⟨[Step.plugin (Call.UpsertTransaction tx false) Ret.done,
          Step.plugin (Call.UpdateBatch batch.ID upd) Ret.done,
          Step.plugin (Call.SubmitBroadcastBatch batch.Author bb) (Ret.submitted tid)] ++ steps,
          tid, ?_, ?_, ?_, ?_⟩
        · rw [hlog]; simp [Ret.ofErr]
        · exact Shape.append (by simp [Step.ok]) hshape
        · simpa [Step.call, List.prefix_cons_inj] using hpre
        · intro h
          rw [hfull h]
          simp

theorem RunAsGroup_err {σ κ : Type} (bm : broadcastManager σ κ)
    (fn : World σ → Option Err × World σ) (w : World σ) :
    (RunAsGroup bm fn w).1 = (fn { st := w.st, log := w.log ++ [Step.enterGroup] }).1 := by
  unfold RunAsGroup
  rcases fn { st := w.st, log := w.log ++ [Step.enterGroup] } with ⟨e, w1⟩
  cases e <;> rfl

theorem RunAsGroup_log {σ κ : Type} (bm : broadcastManager σ κ)
    (fn : World σ → Option Err × World σ) (w : World σ) :
    (RunAsGroup bm fn w).2.log = (fn { st := w.st, log := w.log ++ [Step.enterGroup] }).2.log := by
  unfold RunAsGroup
  rcases fn { st := w.st, log := w.log ++ [Step.enterGroup] } with ⟨e, w1⟩
  cases e <;> rfl

theorem RunAsGroup_ok {σ κ : Type} (bm : broadcastManager σ κ)
    (fn : World σ → Option Err × World σ) (w : World σ)
    (h : (fn { st := w.st, log := w.log ++ [Step.enterGroup] }).1 = none) :
    RunAsGroup bm fn w = (none, (fn { st := w.st, log := w.log ++ [Step.enterGroup] }).2) := by
  unfold RunAsGroup
  rcases hfn : fn { st := w.st, log := w.log ++ [Step.enterGroup] } with ⟨e, w1⟩
  rw [hfn] at h
  cases e with
  | none => rfl
  | some e => cases h

/-- The log of a dispatch whose batch serialises: the `PublishData` call, then,
when it succeeded, a prefix of the group's calls that ends with the first
failure, or the whole group when there is none. -/
theorem dispatchBatch_log {σ κ : Type} (bm : broadcastManager σ κ) (A : Ambient) (batch : Batch)
    (w : World σ) (payload : Bytes) (hser : A.Marshal batch = Except.ok payload) :
    ∃ r steps ref sid tid,
      (dispatchBatch bm A batch w).world.log
        = w.log ++ Step.plugin (Call.PublishData payload) r :: steps ∧
      (dispatchBatch bm A batch w).batch = { batch with PayloadRef := ref } ∧
      ((∃ e, r = Ret.failed e ∧ steps = [] ∧ (dispatchBatch bm A batch w).err = some e) ∨
       (r = Ret.published ref sid ∧ Shape (dispatchBatch bm A batch w).err steps ∧
        steps.map Step.call <+: (groupSteps bm A batch ref sid tid).map Step.call ∧
        ((dispatchBatch bm A batch w).err = none → steps = groupSteps bm A batch ref sid tid))) := by
  simp only [dispatchBatch, hser]
  rcases hp : bm.publicstorage.PublishData payload w.st with ⟨⟨ref, sid, e⟩, s1⟩
  cases e with
  | some e =>
    exact ⟨Ret.failed e, [], ref, sid, "", by simp, rfl, Or.inl ⟨e, rfl, rfl, rfl⟩⟩
  | none =>
    simp only [RunAsGroup_err, RunAsGroup_log]
    obtain ⟨steps, tid, hlog, hshape, hpre, hfull⟩ := submitTXAndUpdateDB_log bm A
      { batch with PayloadRef := ref } sid
      { st := s1, log := w.log ++ [Step.plugin (Call.PublishData payload)
        (Ret.published ref sid)] ++ [Step.enterGroup] }
    refine ⟨Ret.published ref sid, Step.enterGroup :: steps, ref, sid, tid, ?_, rfl,
      Or.inr ⟨rfl, ?_, hpre, hfull⟩⟩
    · rw [hlog]; simp
    · exact Shape.append (a := [Step.enterGroup]) (by simp [Step.ok]) hshape

/-! ## Consequences for a whole dispatch -/

theorem stepsSince_append {σ : Type} (w w1 : World σ) (steps : List Step)
    (h : w1.log = w.log ++ steps) : stepsSince w w1 = steps := by
  simp [stepsSince, h]

theorem opSteps_eq {σ κ : Type} (bm : broadcastManager σ κ) (tid sid : String)
    (msgs : List Message) :
    opSteps bm tid sid msgs = (msgs.flatMap (messageOps bm tid sid)).map
      (fun op => Step.plugin (Call.UpsertOperation op) Ret.done) := by
  induction msgs with
  | nil => rfl
  | cons msg rest ih => simp [opSteps, ih]

theorem opSteps_upserted {σ κ : Type} (bm : broadcastManager σ κ) (tid sid : String)
    (msgs : List Message) :
    (opSteps bm tid sid msgs).filterMap Step.upserted = msgs.flatMap (messageOps bm tid sid) := by
  rw [opSteps_eq, List.filterMap_map]
  have : (Step.upserted ∘ fun op => Step.plugin (Call.UpsertOperation op) Ret.done)
      = (some : Operation → Option Operation) := by
    funext op; rfl
  rw [this, List.filterMap_some]

theorem length_flatMap_messageOps {σ κ : Type} (bm : broadcastManager σ κ) (tid sid : String)
    (msgs : List Message) :
    (msgs.flatMap (messageOps bm tid sid)).length = 2 * msgs.length := by
  induction msgs with
  | nil => rfl
  | cons msg rest ih =>
    simp only [List.flatMap_cons, List.length_append, ih, List.length_cons, messageOps,
      List.length_nil]
    omega

/-- A list whose entries before the last all succeeded has its only failed
entry at the end. -/
theorem failed_step_is_last (pre1 pre2 post : List Step) (a b : Step)
    (h : pre1 ++ [a] = pre2 ++ b :: post) (hpre : ∀ s ∈ pre1, s.ok = true)
    (hb : b.ok = false) : pre1 = pre2 ∧ a = b ∧ post = [] := by
  induction pre1 generalizing pre2 with
  | nil =>
    cases pre2 with
    | nil => simpa using h
    | cons x xs => simp at h
  | cons y ys ih =>
    cases pre2 with
    | nil =>
      simp at h
      have hy := hpre y (by simp)
      rw [h.1, hb] at hy
      cases hy
    | cons x xs =>
      simp at h
      obtain ⟨h1, h2, h3⟩ := ih xs h.2 (fun s hs => hpre s (by simp [hs]))
      exact ⟨by rw [h.1, h1], h2, h3⟩

theorem dispatchBatch_steps_of_error {σ κ : Type} (bm : broadcastManager σ κ) (A : Ambient)
    (batch : Batch) (w : World σ) (err : Err) (hser : A.Marshal batch = Except.error err) :
    stepsSince w (dispatchBatch bm A batch w).world = [] ∧
      (dispatchBatch bm A batch w).err = some (Err.MsgSerializationFailed err) := by
  simp [dispatchBatch, hser, stepsSince]

theorem mem_groupSteps_call {σ κ : Type} (bm : broadcastManager σ κ) (A : Ambient)
    (batch : Batch) (ref : Option Bytes32) (sid tid : String) (s : Step)
    (h : s ∈ groupSteps bm A batch ref sid tid) : s.isPublishData = false := by
  simp only [groupSteps, opSteps_eq, List.mem_append, List.mem_cons, List.mem_map,
    List.mem_singleton, List.not_mem_nil, or_false] at h
  rcases h with (h | h | h | h) | ⟨op, _, h⟩ <;> subst h <;> rfl

/-- C4: when a plugin call made by `dispatchBatch` fails with `e`, that is when
the entries the run appended to the log contain a failed call, the run returns
exactly `e`, the failed call is the last entry (no further call, no retry), and
every call before it succeeded.  So a run that returns no error made no failing
call. -/
theorem dispatchBatch_returns_first_plugin_error {σ κ : Type} (bm : broadcastManager σ κ)
    (A : Ambient) (batch : Batch) (w : World σ) (pre post : List Step) (c : Call) (e : Err)
    (h : stepsSince w (dispatchBatch bm A batch w).world
      = pre ++ Step.plugin c (Ret.failed e) :: post) :
    (dispatchBatch bm A batch w).err = some e ∧ post = [] ∧ ∀ s ∈ pre, s.ok = true := by
  cases hser : A.Marshal batch with
  | error err =>
    rw [(dispatchBatch_steps_of_error bm A batch w err hser).1] at h
    simp at h
  | ok payload =>
    obtain ⟨r, steps, ref, sid, tid, hlog, -, hcase⟩ := dispatchBatch_log bm A batch w payload hser
    rw [stepsSince_append _ _ _ hlog] at h
    rcases hcase with ⟨e1, hr, hsteps, herr⟩ | ⟨hr, hshape, -, -⟩
    · subst hr hsteps
      obtain ⟨h1, h2, h3⟩ := failed_step_is_last [] pre post _ _ h (by simp) rfl
      subst h1
      cases h2
      exact ⟨herr, h3, by simp⟩
    · cases herr : (dispatchBatch bm A batch w).err with
      | none =>
        rw [herr] at hshape
        have hmem : Step.plugin c (Ret.failed e) ∈ Step.plugin (Call.PublishData payload) r :: steps := by
          rw [h]; simp
        rcases List.mem_cons.1 hmem with hm | hm
        · rw [hr] at hm; cases hm
        · have := hshape _ hm
          simp [Step.ok] at this
      | some e1 =>
        rw [herr] at hshape
        obtain ⟨pre1, c1, hsteps, hpre1⟩ := hshape
        subst hsteps
        have hall : ∀ s ∈ Step.plugin (Call.PublishData payload) r :: pre1, s.ok = true := by
          intro s hs
          rcases List.mem_cons.1 hs with hm | hm
          · subst hm; rw [hr]; rfl
          · exact hpre1 s hm
        obtain ⟨h1, h2, h3⟩ := failed_step_is_last
          (Step.plugin (Call.PublishData payload) r :: pre1) pre post
          (Step.plugin c1 (Ret.failed e1)) (Step.plugin c (Ret.failed e)) (by simpa using h)
          hall rfl
        cases h2
        exact ⟨rfl, h3, h1 ▸ hall⟩

theorem dispatchBatch_returns_first_plugin_error_witness :
    stepsSince ⟨0, []⟩ (dispatchBatch (scriptedManager 5) exampleAmbient exampleBatch ⟨0, []⟩).world
      = stepsBeforeFailure ++ Step.plugin (Call.UpsertOperation (NewMessageOp "ipfs" "Qm1"
          (exampleMessage 10) OpType.OpTypePublicStorageBatchBroadcast
          OpStatus.OpStatusSucceeded "")) (Ret.failed (Err.other "pop")) :: [] ∧
    (dispatchBatch (scriptedManager 5) exampleAmbient exampleBatch ⟨0, []⟩).err
      = some (Err.other "pop") :=
  ⟨by decide,
   (dispatchBatch_returns_first_plugin_error (scriptedManager 5) exampleAmbient exampleBatch
      ⟨0, []⟩ stepsBeforeFailure [] (Call.UpsertOperation (NewMessageOp "ipfs" "Qm1"
          (exampleMessage 10) OpType.OpTypePublicStorageBatchBroadcast
          OpStatus.OpStatusSucceeded "")) (Err.other "pop") (by decide)).1⟩

/-- C1: when the publish succeeds, returning the storage id `sid`, and no plugin
call of the run fails (UpsertTransaction, UpdateBatch, SubmitBroadcastBatch and
every UpsertOperation succeed), `dispatchBatch` returns no error and the
operations it upserts are, for each message in batch order, first the pending
blockchain batch pin owned by the ledger plugin with the tracking id `tid`
returned by the ledger, then the succeeded public-storage broadcast owned by
the storage plugin with `sid`: exactly `2 * N` upserts for `N` messages. -/
theorem dispatchBatch_upserts_two_operations_per_message {σ κ : Type}
    (bm : broadcastManager σ κ) (A : Ambient) (batch : Batch) (w : World σ) (payload : Bytes)
    (ref : Option Bytes32) (sid : String)
    (hpub : Step.plugin (Call.PublishData payload) (Ret.published ref sid)
      ∈ stepsSince w (dispatchBatch bm A batch w).world)
    (hok : ∀ s ∈ stepsSince w (dispatchBatch bm A batch w).world, s.ok = true) :
    ∃ tid,
      (dispatchBatch bm A batch w).err = none ∧
      Step.plugin (Call.SubmitBroadcastBatch batch.Author
          { TransactionID := batch.Payload.TX.ID, BatchID := batch.ID, BatchPaylodRef := ref })
        (Ret.submitted tid) ∈ stepsSince w (dispatchBatch bm A batch w).world ∧
      (stepsSince w (dispatchBatch bm A batch w).world).filterMap Step.upserted
        = batch.Payload.Messages.flatMap (fun msg =>
            [ NewMessageOp bm.blockchain.Name tid msg
                OpType.OpTypeBlockchainBatchPin OpStatus.OpStatusPending "",
              NewMessageOp bm.publicstorage.Name sid msg
                OpType.OpTypePublicStorageBatchBroadcast OpStatus.OpStatusSucceeded "" ]) ∧
      ((stepsSince w (dispatchBatch bm A batch w).world).filterMap Step.upserted).length
        = 2 * batch.Payload.Messages.length := by
  cases hser : A.Marshal batch with
  | error err =>
    rw [(dispatchBatch_steps_of_error bm A batch w err hser).1] at hpub
    simp at hpub
  | ok payload1 =>
    obtain ⟨r, steps, ref1, sid1, tid, hlog, -, hcase⟩ :=
      dispatchBatch_log bm A batch w payload1 hser
    rw [stepsSince_append _ _ _ hlog] at hpub hok ⊢
    rcases hcase with ⟨e1, hr, -, -⟩ | ⟨hr, hshape, -, hfull⟩
    · have := hok _ (List.mem_cons_self _ _)
      rw [hr] at this
      cases this
    · have herr : (dispatchBatch bm A batch w).err = none := by
        cases h : (dispatchBatch bm A batch w).err with
        | none => rfl
        | some e1 =>
          rw [h] at hshape
          obtain ⟨pre1, c1, hsteps, -⟩ := hshape
          have := hok (Step.plugin c1 (Ret.failed e1)) (by rw [hsteps]; simp)
          cases this
      have hsteps := hfull herr
      subst hsteps hr
      have hrs : ref1 = ref ∧ sid1 = sid := by
        rcases List.mem_cons.1 hpub with hm | hm
        · cases hm; exact ⟨rfl, rfl⟩
        · have := mem_groupSteps_call bm A batch ref1 sid1 tid _ hm
          cases this
      obtain ⟨rfl, rfl⟩ := hrs
      have hops : (Step.plugin (Call.PublishData payload1) (Ret.published ref1 sid1)
          :: groupSteps bm A batch ref1 sid1 tid).filterMap Step.upserted
          = batch.Payload.Messages.flatMap (messageOps bm tid sid1) := by
        simp only [groupSteps, List.filterMap_cons, List.cons_append, List.nil_append,
          Step.upserted, opSteps_upserted]
      refine ⟨tid, herr, by simp [groupSteps], hops, ?_⟩
      rw [hops, length_flatMap_messageOps]

theorem dispatchBatch_upserts_two_operations_per_message_witness :
    ∃ tid,
      (dispatchBatch (scriptedManager 1000) exampleAmbient exampleBatch ⟨0, []⟩).err = none ∧
      Step.plugin (Call.SubmitBroadcastBatch exampleBatch.Author
          { TransactionID := exampleBatch.Payload.TX.ID, BatchID := exampleBatch.ID,
            BatchPaylodRef := some 77 })
        (Ret.submitted tid) ∈ stepsSince ⟨0, []⟩
          (dispatchBatch (scriptedManager 1000) exampleAmbient exampleBatch ⟨0, []⟩).world ∧
      (stepsSince ⟨0, []⟩ (dispatchBatch (scriptedManager 1000) exampleAmbient exampleBatch
          ⟨0, []⟩).world).filterMap Step.upserted
        = exampleBatch.Payload.Messages.flatMap (fun msg =>
            [ NewMessageOp (scriptedManager 1000).blockchain.Name tid msg
                OpType.OpTypeBlockchainBatchPin OpStatus.OpStatusPending "",
              NewMessageOp (scriptedManager 1000).publicstorage.Name "Qm1" msg
                OpType.OpTypePublicStorageBatchBroadcast OpStatus.OpStatusSucceeded "" ]) ∧
      ((stepsSince ⟨0, []⟩ (dispatchBatch (scriptedManager 1000) exampleAmbient exampleBatch
          ⟨0, []⟩).world).filterMap Step.upserted).length
        = 2 * exampleBatch.Payload.Messages.length :=
  dispatchBatch_upserts_two_operations_per_message (scriptedManager 1000) exampleAmbient
    exampleBatch ⟨0, []⟩ [2] (some 77) "Qm1" (by decide) (by decide)

theorem Step.call_of_isPublishData (s : Step) (h : s.isPublishData = true) :
    ∀ t : Step, t.call = s.call → t.isPublishData = true := by
  intro t ht
  cases s with
  | enterGroup => cases h
  | plugin c r =>
    cases c <;> cases h
    cases t with
    | enterGroup => cases ht
    | plugin c1 r1 =>
      simp only [Step.call, Option.some.injEq] at ht
      subst ht
      rfl

theorem countP_isPublishData_of_prefix {σ κ : Type} (bm : broadcastManager σ κ) (A : Ambient)
    (batch : Batch) (ref : Option Bytes32) (sid tid : String) (rest : List Step)
    (h : rest.map Step.call <+: (groupSteps bm A batch ref sid tid).map Step.call) :
    rest.countP Step.isPublishData = 0 := by
  rw [List.countP_eq_zero]
  intro s hs hp
  have hmem : s.call ∈ (groupSteps bm A batch ref sid tid).map Step.call :=
    h.subset (List.mem_map_of_mem _ hs)
  obtain ⟨g, hg, hcall⟩ := List.mem_map.1 hmem
  have h1 := Step.call_of_isPublishData s hp g hcall
  rw [mem_groupSteps_call bm A batch ref sid tid g hg] at h1
  cases h1

/-- C10 (amended): in every run of `dispatchBatch` in which the batch
serialises, the log of the run starts with the one `PublishData` call of the
run, made before the atomic group is entered, and the reference `ref` it
returns is assigned to the batch.  When the publish fails nothing follows and
its error is returned.  When it succeeds the group is entered and its calls are
made in the order UpsertTransaction, UpdateBatch, SubmitBroadcastBatch, then
the UpsertOperation calls: all of them, each succeeding, when the run returns
no error, and otherwise all of them up to the first one that fails, whose
error is returned.  The payload reference written by UpdateBatch and the one
passed to SubmitBroadcastBatch are both `ref`. -/
theorem dispatchBatch_call_order {σ κ : Type} (bm : broadcastManager σ κ) (A : Ambient)
    (batch : Batch) (w : World σ) (payload : Bytes) (hser : A.Marshal batch = Except.ok payload) :
    ∃ r ref sid tid rest,
      stepsSince w (dispatchBatch bm A batch w).world
        = Step.plugin (Call.PublishData payload) r :: rest ∧
      (stepsSince w (dispatchBatch bm A batch w).world).countP Step.isPublishData = 1 ∧
      (dispatchBatch bm A batch w).batch.PayloadRef = ref ∧
      ((∃ e, r = Ret.failed e ∧ rest = [] ∧ (dispatchBatch bm A batch w).err = some e) ∨
       (r = Ret.published ref sid ∧
        (((dispatchBatch bm A batch w).err = none ∧
            rest =
              [ Step.enterGroup,
                Step.plugin (Call.UpsertTransaction (batchTransaction A batch) false) Ret.done,
                Step.plugin (Call.UpdateBatch batch.ID (Update.Set "payloadref" ref)) Ret.done,
                Step.plugin (Call.SubmitBroadcastBatch batch.Author
                  { TransactionID := batch.Payload.TX.ID, BatchID := batch.ID,
                    BatchPaylodRef := ref }) (Ret.submitted tid) ]
              ++ (batch.Payload.Messages.flatMap (fun msg =>
                  [ NewMessageOp bm.blockchain.Name tid msg
                      OpType.OpTypeBlockchainBatchPin OpStatus.OpStatusPending "",
                    NewMessageOp bm.publicstorage.Name sid msg
                      OpType.OpTypePublicStorageBatchBroadcast
                      OpStatus.OpStatusSucceeded "" ])).map
                  (fun op => Step.plugin (Call.UpsertOperation op) Ret.done)) ∨
         (∃ e pre c, (dispatchBatch bm A batch w).err = some e ∧
            rest = pre ++ [Step.plugin c (Ret.failed e)] ∧
            (∀ s ∈ pre, s.ok = true) ∧
            rest.map Step.call <+:
              [ none,
                some (Call.UpsertTransaction (batchTransaction A batch) false),
                some (Call.UpdateBatch batch.ID (Update.Set "payloadref" ref)),
                some (Call.SubmitBroadcastBatch batch.Author
                  { TransactionID := batch.Payload.TX.ID, BatchID := batch.ID,
                    BatchPaylodRef := ref }) ]
              ++ (batch.Payload.Messages.flatMap (fun msg =>
                  [ NewMessageOp bm.blockchain.Name tid msg
                      OpType.OpTypeBlockchainBatchPin OpStatus.OpStatusPending "",
                    NewMessageOp bm.publicstorage.Name sid msg
                      OpType.OpTypePublicStorageBatchBroadcast
                      OpStatus.OpStatusSucceeded "" ])).map
                  (fun op => some (Call.UpsertOperation op)))))) := by
  obtain ⟨r, steps, ref, sid, tid, hlog, hbatch, hcase⟩ :=
    dispatchBatch_log bm A batch w payload hser
  have hcalls : (groupSteps bm A batch ref sid tid).map Step.call
      = [ none,
          some (Call.UpsertTransaction (batchTransaction A batch) false),
          some (Call.UpdateBatch batch.ID (Update.Set "payloadref" ref)),
          some (Call.SubmitBroadcastBatch batch.Author
            { TransactionID := batch.Payload.TX.ID, BatchID := batch.ID, BatchPaylodRef := ref }) ]
        ++ (batch.Payload.Messages.flatMap (messageOps bm tid sid)).map
            (fun op => some (Call.UpsertOperation op)) := by
    simp [groupSteps, opSteps_eq, Step.call, Function.comp_def]
  have hfull : groupSteps bm A batch ref sid tid
      = [ Step.enterGroup,
          Step.plugin (Call.UpsertTransaction (batchTransaction A batch) false) Ret.done,
          Step.plugin (Call.UpdateBatch batch.ID (Update.Set "payloadref" ref)) Ret.done,
          Step.plugin (Call.SubmitBroadcastBatch batch.Author
            { TransactionID := batch.Payload.TX.ID, BatchID := batch.ID,
              BatchPaylodRef := ref }) (Ret.submitted tid) ]
        ++ (batch.Payload.Messages.flatMap (messageOps bm tid sid)).map
            (fun op => Step.plugin (Call.UpsertOperation op) Ret.done) := by
    simp [groupSteps, opSteps_eq]
  refine ⟨r, ref, sid, tid, steps, stepsSince_append _ _ _ hlog, ?_, by rw [hbatch], ?_⟩
  · rw [stepsSince_append _ _ _ hlog]
    rcases hcase with ⟨e1, -, hsteps, -⟩ | ⟨-, -, hpre, -⟩
    · subst hsteps; rfl
    · rw [List.countP_cons, countP_isPublishData_of_prefix bm A batch ref sid tid steps hpre]
      rfl
  · rcases hcase with ⟨e1, hr, hsteps, herr⟩ | ⟨hr, hshape, hpre, hall⟩
    · exact Or.inl ⟨e1, hr, hsteps, herr⟩
    · refine Or.inr ⟨hr, ?_⟩
      cases hd : (dispatchBatch bm A batch w).err with
      | none =>
        refine Or.inl ⟨rfl, ?_⟩
        rw [hall hd, hfull]
        rfl
      | some e =>
        rw [hd] at hshape
        obtain ⟨pre, c, hsteps, hok⟩ := hshape
        refine Or.inr ⟨e, pre, c, rfl, hsteps, hok, ?_⟩
        rw [hcalls] at hpre
        exact hpre

theorem dispatchBatch_call_order_witness :
    ∃ r ref sid tid rest,
      stepsSince ⟨0, []⟩ (dispatchBatch (scriptedManager 6) exampleAmbient exampleBatch
          ⟨0, []⟩).world
        = Step.plugin (Call.PublishData [2]) r :: rest ∧
      (stepsSince ⟨0, []⟩ (dispatchBatch (scriptedManager 6) exampleAmbient exampleBatch
          ⟨0, []⟩).world).countP Step.isPublishData = 1 ∧
      (dispatchBatch (scriptedManager 6) exampleAmbient exampleBatch ⟨0, []⟩).batch.PayloadRef
        = ref ∧
      ((∃ e, r = Ret.failed e ∧ rest = [] ∧
          (dispatchBatch (scriptedManager 6) exampleAmbient exampleBatch ⟨0, []⟩).err = some e) ∨
       (r = Ret.published ref sid ∧
        (((dispatchBatch (scriptedManager 6) exampleAmbient exampleBatch ⟨0, []⟩).err = none ∧
            rest =
              [ Step.enterGroup,
                Step.plugin (Call.UpsertTransaction
                  (batchTransaction exampleAmbient exampleBatch) false) Ret.done,
                Step.plugin (Call.UpdateBatch exampleBatch.ID (Update.Set "payloadref" ref))
                  Ret.done,
                Step.plugin (Call.SubmitBroadcastBatch exampleBatch.Author
                  { TransactionID := exampleBatch.Payload.TX.ID, BatchID := exampleBatch.ID,
                    BatchPaylodRef := ref }) (Ret.submitted tid) ]
              ++ (exampleBatch.Payload.Messages.flatMap (fun msg =>
                  [ NewMessageOp (scriptedManager 6).blockchain.Name tid msg
                      OpType.OpTypeBlockchainBatchPin OpStatus.OpStatusPending "",
                    NewMessageOp (scriptedManager 6).publicstorage.Name sid msg
                      OpType.OpTypePublicStorageBatchBroadcast
                      OpStatus.OpStatusSucceeded "" ])).map
                  (fun op => Step.plugin (Call.UpsertOperation op) Ret.done)) ∨
         (∃ e pre c,
            (dispatchBatch (scriptedManager 6) exampleAmbient exampleBatch ⟨0, []⟩).err
              = some e ∧
            rest = pre ++ [Step.plugin c (Ret.failed e)] ∧
            (∀ s ∈ pre, s.ok = true) ∧
            rest.map Step.call <+:
              [ none,
                some (Call.UpsertTransaction
                  (batchTransaction exampleAmbient exampleBatch) false),
                some (Call.UpdateBatch exampleBatch.ID (Update.Set "payloadref" ref)),
                some (Call.SubmitBroadcastBatch exampleBatch.Author
                  { TransactionID := exampleBatch.Payload.TX.ID, BatchID := exampleBatch.ID,
                    BatchPaylodRef := ref }) ]
              ++ (exampleBatch.Payload.Messages.flatMap (fun msg =>
                  [ NewMessageOp (scriptedManager 6).blockchain.Name tid msg
                      OpType.OpTypeBlockchainBatchPin OpStatus.OpStatusPending "",
                    NewMessageOp (scriptedManager 6).publicstorage.Name sid msg
                      OpType.OpTypePublicStorageBatchBroadcast
                      OpStatus.OpStatusSucceeded "" ])).map
                  (fun op => some (Call.UpsertOperation op)))))) :=
  dispatchBatch_call_order (scriptedManager 6) exampleAmbient exampleBatch ⟨0, []⟩ [2] rfl

/-- C10 as stated fails on a batch that does not serialise: the run returns the
wrapped serialisation error and makes no `PublishData` call at all. -/
theorem dispatchBatch_unserialisable_makes_no_publish :
    (dispatchBatch (scriptedManager 1000) failingAmbient exampleBatch ⟨0, []⟩).err
      = some (Err.MsgSerializationFailed (Err.other "invalid character")) ∧
    (stepsSince ⟨0, []⟩ (dispatchBatch (scriptedManager 1000) failingAmbient exampleBatch
      ⟨0, []⟩).world).countP Step.isPublishData = 0 := by
  decide

/-- C9: `BroadcastMessage` seals the message first.  When sealing fails with
`e` it returns `e` and leaves the world as it was: no plugin call is made.
Otherwise the only entry it appends to the log is one `UpsertMessage` of the
sealed message with `allowExisting = false`, and it returns the result of that
call unchanged. -/
theorem BroadcastMessage_seals_then_upserts_once {σ κ : Type} (bm : broadcastManager σ κ)
    (A : Ambient) (msg : Message) (w : World σ) :
    (∀ e, (A.Seal msg).2 = some e →
      (BroadcastMessage bm A msg w).1 = some e ∧ (BroadcastMessage bm A msg w).2.2 = w) ∧
    ((A.Seal msg).2 = none →
      (BroadcastMessage bm A msg w).1 = (bm.database.UpsertMessage (A.Seal msg).1 false w.st).1 ∧
      (BroadcastMessage bm A msg w).2.2.st
        = (bm.database.UpsertMessage (A.Seal msg).1 false w.st).2 ∧
      stepsSince w (BroadcastMessage bm A msg w).2.2
        = [Step.plugin (Call.UpsertMessage (A.Seal msg).1 false)
            (Ret.ofErr (bm.database.UpsertMessage (A.Seal msg).1 false w.st).1)]) := by
  constructor
  · intro e he
    simp [BroadcastMessage, he]
  · intro he
    simp [BroadcastMessage, he, World.db, stepsSince]

/-- C8: `NewBroadcastManager` returns an error exactly when one of the four
collaborators is nil; the error is then the initialization error, the manager
is nil and no dispatcher is registered.  Otherwise the manager holds the four
collaborators and exactly two dispatchers are registered, for the message types
Broadcast and Definition in this order, both with the manager's `dispatchBatch`
as handler and with the three batch options read from the configuration. -/
theorem NewBroadcastManager_fails_iff_nil_dependency {σ κ : Type} (cfg : Config) (A : Ambient)
    (di : Option (DatabasePlugin σ)) (bi : Option (BlockchainPlugin σ))
    (pi : Option (PublicstoragePlugin σ)) (ba : Option κ) :
    ((NewBroadcastManager cfg A di bi pi ba).err ≠ none
      ↔ (di = none ∨ bi = none ∨ pi = none ∨ ba = none)) ∧
    ((NewBroadcastManager cfg A di bi pi ba).err ≠ none →
      (NewBroadcastManager cfg A di bi pi ba).err = some Err.MsgInitializationNilDepError ∧
      (NewBroadcastManager cfg A di bi pi ba).manager.isNone = true ∧
      (NewBroadcastManager cfg A di bi pi ba).registered.length = 0) ∧
    ((NewBroadcastManager cfg A di bi pi ba).err = none →
      ∃ bm, (NewBroadcastManager cfg A di bi pi ba).manager = some bm ∧
        di = some bm.database ∧ bi = some bm.blockchain ∧ pi = some bm.publicstorage ∧
        ba = some bm.batch ∧
        (NewBroadcastManager cfg A di bi pi ba).registered.map Registration.msgType
          = [MessageType.MessageTypeBroadcast, MessageType.MessageTypeDefinition] ∧
        ∀ reg ∈ (NewBroadcastManager cfg A di bi pi ba).registered,
          reg.handler = dispatchBatch bm A ∧
          reg.options = { BatchMaxSize := cfg.BroadcastBatchSize,
                          BatchTimeout := cfg.BroadcastBatchTimeout,
                          DisposeTimeout := cfg.BroadcastBatchAgentTimeout }) := by
  cases di <;> cases bi <;> cases pi <;> cases ba <;> simp [NewBroadcastManager]

/-! ## Token pool confirmation -/

/-- C5: for a pool whose namespace is empty or whose name is empty,
`TokenPoolCreated` never calls `UpsertTokenPool`; its only plugin call is one
`InsertEvent` of an event of type pool-rejected whose reference is the pool's
identity (possibly nil) and whose namespace is the pool's namespace (possibly
empty); and it returns no error. -/
theorem TokenPoolCreated_rejects_missing_field {σ : Type} (database : DatabasePlugin σ)
    (pool : TokenPool) (protocolTxID : String) (additionalInfo : List (String × String))
    (w : World σ) (hmissing : pool.Namespace = "" ∨ pool.Name = "") :
    (TokenPoolCreated database pool protocolTxID additionalInfo w).1 = none ∧
    (stepsSince w (TokenPoolCreated database pool protocolTxID additionalInfo w).2).any
        Step.isUpsertTokenPool = false ∧
    (stepsSince w (TokenPoolCreated database pool protocolTxID additionalInfo w).2).map
        Step.call
      = [some (Call.InsertEvent
          { Typ := EventType.EventTypePoolRejected, Namespace := pool.Namespace,
            Reference := pool.ID })] ∧
    (stepsSince w (TokenPoolCreated database pool protocolTxID additionalInfo w).2).filterMap
        Step.inserted
      = [{ Typ := EventType.EventTypePoolRejected, Namespace := pool.Namespace,
           Reference := pool.ID }] := by
  have key : TokenPoolCreated database pool protocolTxID additionalInfo w
      = (none, (w.db (Call.InsertEvent
          (NewEvent EventType.EventTypePoolRejected pool.Namespace pool.ID))
          (database.InsertEvent
            (NewEvent EventType.EventTypePoolRejected pool.Namespace pool.ID))).2) := by
    unfold TokenPoolCreated
    rcases hmissing with h | h
    · simp [h]
    · by_cases hns : pool.Namespace = ""
      · simp [hns]
      · simp [hns, h]
  rw [key]
  simp [World.db, stepsSince, NewEvent, Step.isUpsertTokenPool, Step.call, Step.inserted]

theorem TokenPoolCreated_rejects_missing_field_witness :
    (TokenPoolCreated (poolDatabase none none) emptyPool "0x12345" [("some", "info")] ⟨0, []⟩).1
      = none ∧
    (stepsSince ⟨0, []⟩ (TokenPoolCreated (poolDatabase none none) emptyPool "0x12345"
      [("some", "info")] ⟨0, []⟩).2).any Step.isUpsertTokenPool = false ∧
    (stepsSince ⟨0, []⟩ (TokenPoolCreated (poolDatabase none none) emptyPool "0x12345"
      [("some", "info")] ⟨0, []⟩).2).map Step.call
      = [some (Call.InsertEvent
          { Typ := EventType.EventTypePoolRejected, Namespace := emptyPool.Namespace,
            Reference := emptyPool.ID })] ∧
    (stepsSince ⟨0, []⟩ (TokenPoolCreated (poolDatabase none none) emptyPool "0x12345"
      [("some", "info")] ⟨0, []⟩).2).filterMap Step.inserted
      = [{ Typ := EventType.EventTypePoolRejected, Namespace := emptyPool.Namespace,
           Reference := emptyPool.ID }] :=
  TokenPoolCreated_rejects_missing_field (poolDatabase none none) emptyPool "0x12345"
    [("some", "info")] ⟨0, []⟩ (Or.inl rfl)

/-- C6: for a pool with a namespace and a name, when `UpsertTokenPool`, called
with `allowExisting = false`, returns an error other than the identity
mismatch, `TokenPoolCreated` returns exactly that error, and the upsert is its
only plugin call: no event is inserted. -/
theorem TokenPoolCreated_propagates_upsert_error {σ : Type} (database : DatabasePlugin σ)
    (pool : TokenPool) (protocolTxID : String) (additionalInfo : List (String × String))
    (w : World σ) (e : Err) (hns : pool.Namespace ≠ "") (hname : pool.Name ≠ "")
    (hupsert : (database.UpsertTokenPool pool false w.st).1 = some e)
    (hother : e ≠ Err.IDMismatch) :
    (TokenPoolCreated database pool protocolTxID additionalInfo w).1 = some e ∧
    stepsSince w (TokenPoolCreated database pool protocolTxID additionalInfo w).2
      = [Step.plugin (Call.UpsertTokenPool pool false) (Ret.failed e)] ∧
    (stepsSince w (TokenPoolCreated database pool protocolTxID additionalInfo w).2).filterMap
      Step.inserted = [] := by
  unfold TokenPoolCreated
  simp only [hns, hname, if_false, World.db, hupsert]
  cases e with
  | IDMismatch => exact absurd rfl hother
  | MsgInitializationNilDepError => simp [stepsSince, Ret.ofErr, Step.inserted]
  | MsgSerializationFailed cause => simp [stepsSince, Ret.ofErr, Step.inserted]
  | other msg => simp [stepsSince, Ret.ofErr, Step.inserted]

theorem TokenPoolCreated_propagates_upsert_error_witness :
    (TokenPoolCreated (poolDatabase (some (Err.other "pop")) none) (namedPool (some 7))
      "0x12345" [("some", "info")] ⟨0, []⟩).1 = some (Err.other "pop") ∧
    stepsSince ⟨0, []⟩ (TokenPoolCreated (poolDatabase (some (Err.other "pop")) none)
      (namedPool (some 7)) "0x12345" [("some", "info")] ⟨0, []⟩).2
      = [Step.plugin (Call.UpsertTokenPool (namedPool (some 7)) false)
          (Ret.failed (Err.other "pop"))] ∧
    (stepsSince ⟨0, []⟩ (TokenPoolCreated (poolDatabase (some (Err.other "pop")) none)
      (namedPool (some 7)) "0x12345" [("some", "info")] ⟨0, []⟩).2).filterMap
      Step.inserted = [] :=
  TokenPoolCreated_propagates_upsert_error (poolDatabase (some (Err.other "pop")) none)
    (namedPool (some 7)) "0x12345" [("some", "info")] ⟨0, []⟩ (Err.other "pop")
    (by decide) (by decide) rfl (by decide)

/-- C7: for a pool with a namespace and a name, when `UpsertTokenPool` succeeds
or reports the identity mismatch, and the insert of the event succeeds,
`TokenPoolCreated` returns no error and inserts exactly one event, whose
reference is the pool's identity and whose namespace is the pool's namespace;
its type is pool-confirmed when the upsert succeeded and pool-rejected when it
reported the mismatch. -/
theorem TokenPoolCreated_emits_one_event {σ : Type} (database : DatabasePlugin σ)
    (pool : TokenPool) (protocolTxID : String) (additionalInfo : List (String × String))
    (w : World σ) (hns : pool.Namespace ≠ "") (hname : pool.Name ≠ "")
    (hupsert : (database.UpsertTokenPool pool false w.st).1 = none ∨
      (database.UpsertTokenPool pool false w.st).1 = some Err.IDMismatch)
    (hinsert : (database.InsertEvent
      { Typ := if (database.UpsertTokenPool pool false w.st).1 = none
               then EventType.EventTypePoolConfirmed else EventType.EventTypePoolRejected,
        Namespace := pool.Namespace, Reference := pool.ID }
      (database.UpsertTokenPool pool false w.st).2).1 = none) :
    (TokenPoolCreated database pool protocolTxID additionalInfo w).1 = none ∧
    (stepsSince w (TokenPoolCreated database pool protocolTxID additionalInfo w).2).filterMap
      Step.inserted
      = [{ Typ := if (database.UpsertTokenPool pool false w.st).1 = none
                  then EventType.EventTypePoolConfirmed else EventType.EventTypePoolRejected,
           Namespace := pool.Namespace, Reference := pool.ID }] := by
  unfold TokenPoolCreated
  simp only [hns, hname, if_false, World.db]
  rcases hupsert with h | h
  · simp only [h, if_true] at hinsert
    simp [h, hinsert, stepsSince, Ret.ofErr, Step.inserted, NewEvent]
  · simp [h, stepsSince, Ret.ofErr, Step.inserted, NewEvent]

theorem TokenPoolCreated_emits_one_event_witness :
    (TokenPoolCreated (poolDatabase (some Err.IDMismatch) none) (namedPool none) "0x12345"
      [("some", "info")] ⟨0, []⟩).1 = none ∧
    (stepsSince ⟨0, []⟩ (TokenPoolCreated (poolDatabase (some Err.IDMismatch) none)
      (namedPool none) "0x12345" [("some", "info")] ⟨0, []⟩).2).filterMap Step.inserted
      = [{ Typ := if ((poolDatabase (some Err.IDMismatch) none).UpsertTokenPool (namedPool none)
                    false 0).1 = none
                  then EventType.EventTypePoolConfirmed else EventType.EventTypePoolRejected,
           Namespace := (namedPool none).Namespace, Reference := (namedPool none).ID }] :=
  TokenPoolCreated_emits_one_event (poolDatabase (some Err.IDMismatch) none) (namedPool none)
    "0x12345" [("some", "info")] ⟨0, []⟩ (by decide) (by decide) (Or.inr rfl) rfl

/-! ## The upsert store -/

theorem countP_upsertBy {α β : Type} [DecidableEq β] (key : α → β) (x : α) (k : β)
    (l : List α) :
    (upsertBy key x l).countP (fun a => key a = k)
      = if key x = k then max 1 (l.countP (fun a => key a = k))
        else l.countP (fun a => key a = k) := by
  induction l with
  | nil => by_cases h : key x = k <;> simp [upsertBy, h]
  | cons y ys ih =>
    by_cases hy : key y = key x
    · by_cases h : key x = k
      · simp [upsertBy, hy, h, List.countP_cons]
      · simp [upsertBy, hy, h, List.countP_cons]
    · by_cases h : key x = k
      · have hyk : ¬ key y = k := fun hk => hy (hk.trans h.symm)
        simp only [upsertBy, hy, if_false, List.countP_cons, ih, h, if_true, hyk,
          decide_False, Bool.false_eq_true, add_zero]
      · simp only [upsertBy, hy, if_false, List.countP_cons, ih, h]

theorem countP_foldl_upsertBy {α β : Type} [DecidableEq β] (key : α → β) (xs : List α) (k : β) :
    ∀ l : List α,
      (xs.foldl (fun acc x => upsertBy key x acc) l).countP (fun a => key a = k)
        = if k ∈ xs.map key then max 1 (l.countP (fun a => key a = k))
          else l.countP (fun a => key a = k) := by
  induction xs with
  | nil => intro l; simp
  | cons x rest ih =>
    intro l
    simp only [List.foldl_cons, ih, countP_upsertBy, List.map_cons, List.mem_cons]
    by_cases hx : key x = k
    · subst hx
      by_cases hr : key x ∈ rest.map key
      · simp only [hr, if_true, or_true]
        omega
      · simp only [hr, if_false, if_true, true_or]
    · have hk : ¬ k = key x := fun h => hx h.symm
      by_cases hr : k ∈ rest.map key
      · simp only [hr, if_true, hx, if_false, or_true]
      · simp only [hr, if_false, hx, hk, or_self]

theorem countP_key_le_one {α β : Type} [DecidableEq β] (key : α → β) (l : List α) (k : β)
    (h : (l.map key).Nodup) : l.countP (fun a => key a = k) ≤ 1 := by
  have h1 : (l.map key).count k ≤ 1 := List.nodup_iff_count_le_one.1 h k
  have h2 : (l.map key).count k = l.countP (fun a => key a = k) := by
    rw [List.count, List.countP_map]
    congr 1
  omega

theorem storeManager_UpsertOperation {ε : Type} (b : BlockchainPlugin ε)
    (p : PublicstoragePlugin ε) (op : Operation) (x : Store × ε) :
    (storeManager b p).database.UpsertOperation op x
      = (none, ({ x.1 with operations := upsertBy Operation.ID op x.1.operations }, x.2)) :=
  rfl

theorem storeManager_UpsertTransaction {ε : Type} (b : BlockchainPlugin ε)
    (p : PublicstoragePlugin ε) (tx : Transaction) (x : Store × ε) :
    (storeManager b p).database.UpsertTransaction tx false x
      = ((Store.UpsertTransaction tx false x.1).1, ((Store.UpsertTransaction tx false x.1).2, x.2)) :=
  rfl

theorem storeManager_UpdateBatch {ε : Type} (b : BlockchainPlugin ε)
    (p : PublicstoragePlugin ε) (id : Option UUID) (u : Update) (x : Store × ε) :
    (storeManager b p).database.UpdateBatch id u x
      = (none, ((Store.UpdateBatch id u x.1).2, x.2)) :=
  rfl

theorem storeManager_Rollback {ε : Type} (b : BlockchainPlugin ε)
    (p : PublicstoragePlugin ε) (x y : Store × ε) :
    (storeManager b p).database.Rollback x y = (x.1, y.2) :=
  rfl

theorem storeManager_PublishData {ε : Type} (b : BlockchainPlugin ε)
    (p : PublicstoragePlugin ε) (payload : Bytes) (x : Store × ε) :
    (storeManager b p).publicstorage.PublishData payload x
      = ((p.PublishData payload x.2).1, (x.1, (p.PublishData payload x.2).2)) :=
  rfl

theorem storeManager_SubmitBroadcastBatch {ε : Type} (b : BlockchainPlugin ε)
    (p : PublicstoragePlugin ε) (identity : String) (bb : BroadcastBatch) (x : Store × ε) :
    (storeManager b p).blockchain.SubmitBroadcastBatch identity bb x
      = ((b.SubmitBroadcastBatch identity bb x.2).1,
          (x.1, (b.SubmitBroadcastBatch identity bb x.2).2)) :=
  rfl

theorem storeOperations_store {ε : Type} (b : BlockchainPlugin ε) (p : PublicstoragePlugin ε)
    (tid sid : String) (msgs : List Message) :
    ∀ w : World (Store × ε),
      (storeOperations (storeManager b p) tid sid msgs w).1 = none ∧
      (storeOperations (storeManager b p) tid sid msgs w).2.st
        = ({ w.st.1 with
              operations := upsertOperations
                (msgs.flatMap (messageOps (storeManager b p) tid sid)) w.st.1.operations },
           w.st.2) := by
  induction msgs with
  | nil => intro w; simp [storeOperations, upsertOperations]
  | cons msg rest ih =>
    intro w
    simp only [storeOperations, World.db, storeManager_UpsertOperation]
    constructor
    · exact (ih _).1
    · rw [(ih _).2]
      simp [messageOps, upsertOperations]

/-- What a dispatch does to the upsert store.  A run that returns an error
leaves the store as it was, and the error is the serialisation error, the error
of a failed storage or ledger call, or the conflict reported by the transaction
upsert.  A run that returns no error has upserted the transaction and the two
operations of each message. -/
theorem dispatchBatch_store {ε : Type} (b : BlockchainPlugin ε) (p : PublicstoragePlugin ε)
    (A : Ambient) (batch : Batch) (w : World (Store × ε)) :
    (∀ e, (dispatchBatch (storeManager b p) A batch w).err = some e →
      (dispatchBatch (storeManager b p) A batch w).world.st.1 = w.st.1 ∧
      ((∃ err, A.Marshal batch = Except.error err) ∨
       (∃ s ∈ stepsSince w (dispatchBatch (storeManager b p) A batch w).world,
          s.isExternal = true ∧ s.ok = false) ∨
       (Store.UpsertTransaction (batchTransaction A batch) false w.st.1).1 = some e)) ∧
    ((dispatchBatch (storeManager b p) A batch w).err = none →
      ∃ sid tid,
        (Store.UpsertTransaction (batchTransaction A batch) false w.st.1).1 = none ∧
        (dispatchBatch (storeManager b p) A batch w).world.st.1.transactions
          = (Store.UpsertTransaction (batchTransaction A batch) false w.st.1).2.transactions ∧
        (dispatchBatch (storeManager b p) A batch w).world.st.1.operations
          = upsertOperations
              (batch.Payload.Messages.flatMap (messageOps (storeManager b p) tid sid))
              w.st.1.operations) := by
  cases hser : A.Marshal batch with
  | error err => simp [dispatchBatch, hser]
  | ok payload =>
    rcases hp : p.PublishData payload w.st.2 with ⟨⟨ref, sid, e0⟩, x1⟩
    cases e0 with
    | some e0 =>
      simp [dispatchBatch, hser, storeManager_PublishData, hp, stepsSince, Step.isExternal,
        Step.ok]
    | none =>
      rcases htx : Store.UpsertTransaction (batchTransaction A batch) false w.st.1 with ⟨e1, s1⟩
      have htx1 : Store.UpsertTransaction (batchTransaction A { batch with PayloadRef := ref })
          false w.st.1 = (e1, s1) := htx
      cases e1 with
      | some e1 =>
        simp [dispatchBatch, hser, storeManager_PublishData, hp, RunAsGroup,
          submitTXAndUpdateDB, World.db, storeManager_UpsertTransaction, htx1,
          storeManager_Rollback]
      | none =>
        rcases hs : b.SubmitBroadcastBatch batch.Author
          { TransactionID := batch.Payload.TX.ID, BatchID := batch.ID, BatchPaylodRef := ref }
          x1 with ⟨⟨tid, e3⟩, x2⟩
        cases e3 with
        | some e3 =>
          simp [dispatchBatch, hser, storeManager_PublishData, hp, RunAsGroup,
            submitTXAndUpdateDB, World.db, storeManager_UpsertTransaction, htx1,
            storeManager_Rollback, storeManager_UpdateBatch,
            storeManager_SubmitBroadcastBatch, hs, stepsSince, Step.isExternal, Step.ok,
            Ret.ofErr]
        | none =>
          have hso := storeOperations_store b p tid sid batch.Payload.Messages
          have key : ∀ W : World (Store × ε), W.st = (w.st.1, x1) →
              (submitTXAndUpdateDB (storeManager b p) A { batch with PayloadRef := ref }
                ref sid W).1 = none ∧
              (submitTXAndUpdateDB (storeManager b p) A { batch with PayloadRef := ref }
                ref sid W).2.st.1.transactions = s1.transactions ∧
              (submitTXAndUpdateDB (storeManager b p) A { batch with PayloadRef := ref }
                ref sid W).2.st.1.operations = upsertOperations
                  (batch.Payload.Messages.flatMap (messageOps (storeManager b p) tid sid))
                  s1.operations := by
            intro W hW
            simp [submitTXAndUpdateDB, World.db, storeManager_UpsertTransaction, htx1,
              storeManager_UpdateBatch, storeManager_SubmitBroadcastBatch, hs, hso, hW,
              Store.UpdateBatch]
          have hops : s1.operations = w.st.1.operations := by
            have := congrArg (fun r => r.2.operations) htx
            simp only [Store.UpsertTransaction] at this
            rw [← this]
            split <;> simp
            split <;> simp
          simp only [dispatchBatch, hser, storeManager_PublishData, hp]
          rw [RunAsGroup_ok _ _ _ (key _ rfl).1]
          refine ⟨by simp, fun _ => ⟨sid, tid, trivial, ?_, ?_⟩⟩
          · exact (key _ rfl).2.1
          · rw [← hops]
            exact (key _ rfl).2.2

theorem dispatchBatch_batch {σ κ : Type} (bm : broadcastManager σ κ) (A : Ambient)
    (batch : Batch) (w : World σ) :
    ∃ ref, (dispatchBatch bm A batch w).batch = { batch with PayloadRef := ref } := by
  unfold dispatchBatch
  cases A.Marshal batch with
  | error err => exact ⟨batch.PayloadRef, rfl⟩
  | ok payload =>
    simp only []
    cases (bm.publicstorage.PublishData payload w.st).1.2.2 with
    | none => exact ⟨_, rfl⟩
    | some e => exact ⟨_, rfl⟩

theorem Store.UpsertTransaction_count (tx : Transaction) (s : Store)
    (hok : (Store.UpsertTransaction tx false s).1 = none)
    (hle : s.transactions.countP (fun t => t.ID = tx.ID) ≤ 1) :
    (Store.UpsertTransaction tx false s).2.transactions.countP (fun t => t.ID = tx.ID) = 1 := by
  unfold Store.UpsertTransaction at hok ⊢
  cases hfind : s.transactions.find? (fun t => t.ID = tx.ID) with
  | none =>
    have hzero : s.transactions.countP (fun t => t.ID = tx.ID) = 0 := by
      rw [List.countP_eq_zero]
      exact List.find?_eq_none.1 hfind
    simp [List.countP_append, hzero]
  | some old =>
    rw [hfind] at hok
    have hpos : 0 < s.transactions.countP (fun t => t.ID = tx.ID) := by
      rw [List.countP_pos_iff]
      exact ⟨old, List.mem_of_find?_eq_some hfind,
        List.find?_some (p := fun t : Transaction => decide (t.ID = tx.ID)) hfind⟩
    by_cases hh : old.Hash = tx.Hash
    · simp only [Bool.false_eq_true, if_false, hh, if_true]
      omega
    · simp [hh] at hok

theorem Store.mem_UpsertTransaction (tx t : Transaction) (s : Store)
    (ht : t ∈ (Store.UpsertTransaction tx false s).2.transactions) :
    t = tx ∨ t ∈ s.transactions := by
  unfold Store.UpsertTransaction at ht
  cases hfind : s.transactions.find? (fun t => t.ID = tx.ID) with
  | none =>
    rw [hfind] at ht
    simp only [List.mem_append, List.mem_singleton] at ht
    rcases ht with h | h
    · exact Or.inr h
    · exact Or.inl h
  | some old =>
    rw [hfind] at ht
    by_cases hh : old.Hash = tx.Hash
    · simp only [Bool.false_eq_true, if_false, hh, if_true] at ht
      exact Or.inr ht
    · simp only [Bool.false_eq_true, if_false, hh] at ht
      exact Or.inr ht

theorem mem_messageOps_identity {σ κ : Type} (bm : broadcastManager σ κ) (tid sid : String)
    (msgs : List Message) (msg : Message) (hmsg : msg ∈ msgs) (t : OpType) :
    (msg.Header.ID, t) ∈ (msgs.flatMap (messageOps bm tid sid)).map Operation.ID := by
  rw [List.mem_map]
  cases t with
  | OpTypeBlockchainBatchPin =>
    exact ⟨NewMessageOp bm.blockchain.Name tid msg OpType.OpTypeBlockchainBatchPin
      OpStatus.OpStatusPending "", List.mem_flatMap.2 ⟨msg, hmsg, by simp [messageOps]⟩, rfl⟩
  | OpTypePublicStorageBatchBroadcast =>
    exact ⟨NewMessageOp bm.publicstorage.Name sid msg OpType.OpTypePublicStorageBatchBroadcast
      OpStatus.OpStatusSucceeded "", List.mem_flatMap.2 ⟨msg, hmsg, by simp [messageOps]⟩, rfl⟩

theorem countP_upsertOperations (ops stored : List Operation) (k : Option UUID × OpType)
    (hk : k ∈ ops.map Operation.ID) :
    1 ≤ (upsertOperations ops stored).countP (fun op => op.ID = k) ∧
    (stored.countP (fun op => op.ID = k) ≤ 1 →
      (upsertOperations ops stored).countP (fun op => op.ID = k) = 1) := by
  unfold upsertOperations
  rw [countP_foldl_upsertBy Operation.ID ops k stored, if_pos hk]
  constructor
  · omega
  · intro h; omega

theorem countP_upsertOperations_le_one (ops stored : List Operation)
    (k : Option UUID × OpType) (h : stored.countP (fun op => op.ID = k) ≤ 1) :
    (upsertOperations ops stored).countP (fun op => op.ID = k) ≤ 1 := by
  unfold upsertOperations
  rw [countP_foldl_upsertBy Operation.ID ops k stored]
  split <;> omega

theorem mem_upsertBy {α β : Type} [DecidableEq β] (key : α → β) (x y : α) (l : List α)
    (h : y ∈ upsertBy key x l) : y = x ∨ y ∈ l := by
  induction l with
  | nil => simpa [upsertBy] using h
  | cons z zs ih =>
    by_cases hz : key z = key x
    · simp only [upsertBy, hz, if_true, List.mem_cons] at h
      rcases h with h | h
      · exact Or.inl h
      · exact Or.inr (List.mem_cons_of_mem _ h)
    · simp only [upsertBy, hz, if_false, List.mem_cons] at h
      rcases h with h | h
      · exact Or.inr (by simp [h])
      · rcases ih h with h1 | h1
        · exact Or.inl h1
        · exact Or.inr (List.mem_cons_of_mem _ h1)

theorem mem_upsertOperations (ops : List Operation) (y : Operation) :
    ∀ stored : List Operation, y ∈ upsertOperations ops stored → y ∈ ops ∨ y ∈ stored := by
  induction ops with
  | nil => intro stored h; exact Or.inr h
  | cons x rest ih =>
    intro stored h
    simp only [upsertOperations, List.foldl_cons] at h
    rcases ih _ h with h1 | h1
    · exact Or.inl (List.mem_cons_of_mem _ h1)
    · rcases mem_upsertBy Operation.ID x y stored h1 with h2 | h2
      · exact Or.inl (by simp [h2])
      · exact Or.inr h2

theorem messageOps_ID {σ κ : Type} (bm : broadcastManager σ κ) (tid sid : String)
    (msgs : List Message) (op : Operation)
    (h : op ∈ msgs.flatMap (messageOps bm tid sid)) : op.ID = (op.Message, op.Typ) := by
  obtain ⟨msg, -, hop⟩ := List.mem_flatMap.1 h
  simp only [messageOps, List.mem_cons, List.mem_singleton, List.not_mem_nil, or_false] at hop
  rcases hop with h1 | h1 <;> subst h1 <;> rfl

/-- Where every operation has the identity of its message and type, counting by
message and type is counting by identity. -/
theorem countP_fields_eq_countP_ID (l : List Operation) (msg : Option UUID) (t : OpType)
    (h : ∀ op ∈ l, op.ID = (op.Message, op.Typ)) :
    l.countP (fun op => op.Message = msg ∧ op.Typ = t)
      = l.countP (fun op => op.ID = (msg, t)) := by
  apply List.countP_congr
  intro op hop
  simp [h op hop]

theorem Store.UpsertTransaction_ok (tx : Transaction) (s : Store)
    (h : ∀ t ∈ s.transactions, t.ID = tx.ID → t.Hash = tx.Hash) :
    (Store.UpsertTransaction tx false s).1 = none := by
  unfold Store.UpsertTransaction
  cases hfind : s.transactions.find? (fun t => t.ID = tx.ID) with
  | none => rfl
  | some old =>
    have hid : old.ID = tx.ID := by
      simpa using List.find?_some (p := fun t : Transaction => decide (t.ID = tx.ID)) hfind
    simp [h old (List.mem_of_find?_eq_some hfind) hid]

theorem Store.readyFor_of_keyed (s : Store) (id : Option UUID) (h : Bytes32)
    (hkeyed : s.keyedOnIdentity) (hhash : ∀ t ∈ s.transactions, t.ID = id → t.Hash = h) :
    s.readyFor id h :=
  ⟨countP_key_le_one Transaction.ID s.transactions id hkeyed.1, hhash,
    fun k => countP_key_le_one Operation.ID s.operations k hkeyed.2.1, hkeyed.2.2⟩

/-- A dispatch leaves the store ready for a dispatch of the same batch, whether
it returns an error or not. -/
theorem dispatchBatch_store_ready {ε : Type} (b : BlockchainPlugin ε)
    (p : PublicstoragePlugin ε) (A : Ambient) (batch : Batch) (w : World (Store × ε))
    (hready : w.st.1.readyFor batch.Payload.TX.ID (batchTransaction A batch).Hash) :
    (dispatchBatch (storeManager b p) A batch w).world.st.1.readyFor batch.Payload.TX.ID
      (batchTransaction A batch).Hash := by
  cases hd : (dispatchBatch (storeManager b p) A batch w).err with
  | some e =>
    rw [((dispatchBatch_store b p A batch w).1 e hd).1]
    exact hready
  | none =>
    obtain ⟨sid, tid, htx, htxs, hops⟩ := (dispatchBatch_store b p A batch w).2 hd
    obtain ⟨h1, h2, h3, h4⟩ := hready
    refine ⟨?_, ?_, ?_, ?_⟩
    · rw [htxs]
      exact le_of_eq (Store.UpsertTransaction_count (batchTransaction A batch) w.st.1 htx h1)
    · intro t ht hid
      rw [htxs] at ht
      rcases Store.mem_UpsertTransaction _ t w.st.1 ht with h | h
      · rw [h]
      · exact h2 t h hid
    · intro k
      rw [hops]
      exact countP_upsertOperations_le_one _ _ k (h3 k)
    · intro op hop
      rw [hops] at hop
      rcases mem_upsertOperations _ op _ hop with h | h
      · exact messageOps_ID _ tid sid _ op h
      · exact h4 op h

/-- A dispatch from a ready store in which the batch serialises and the storage
and the ledger calls succeed returns no error, and leaves exactly one
transaction under the batch's transaction identity and exactly one operation
of each type for each message. -/
theorem dispatchBatch_store_converges {ε : Type} (b : BlockchainPlugin ε)
    (p : PublicstoragePlugin ε) (A : Ambient) (batch : Batch) (w : World (Store × ε))
    (hready : w.st.1.readyFor batch.Payload.TX.ID (batchTransaction A batch).Hash)
    (hser : ∃ payload, A.Marshal batch = Except.ok payload)
    (hext : ∀ s ∈ stepsSince w (dispatchBatch (storeManager b p) A batch w).world,
      s.isExternal = true → s.ok = true) :
    (dispatchBatch (storeManager b p) A batch w).err = none ∧
    (dispatchBatch (storeManager b p) A batch w).world.st.1.countTransactions
      batch.Payload.TX.ID = 1 ∧
    ∀ msg ∈ batch.Payload.Messages, ∀ t : OpType,
      (dispatchBatch (storeManager b p) A batch w).world.st.1.countOperations
        msg.Header.ID t = 1 := by
  have hafter := dispatchBatch_store_ready b p A batch w hready
  obtain ⟨h1, h2, h3, h4⟩ := hready
  have herr : (dispatchBatch (storeManager b p) A batch w).err = none := by
    cases hd : (dispatchBatch (storeManager b p) A batch w).err with
    | none => rfl
    | some e =>
      rcases ((dispatchBatch_store b p A batch w).1 e hd).2 with
        ⟨err, hm⟩ | ⟨s, hs, hsx, hsok⟩ | hconf
      · obtain ⟨payload, hpay⟩ := hser
        rw [hpay] at hm
        cases hm
      · rw [hext s hs hsx] at hsok
        cases hsok
      · rw [Store.UpsertTransaction_ok (batchTransaction A batch) w.st.1 h2] at hconf
        cases hconf
  obtain ⟨sid, tid, htx, htxs, hops⟩ := (dispatchBatch_store b p A batch w).2 herr
  refine ⟨herr, ?_, ?_⟩
  · unfold Store.countTransactions
    rw [htxs]
    exact Store.UpsertTransaction_count (batchTransaction A batch) w.st.1 htx h1
  · intro msg hmsg t
    unfold Store.countOperations
    rw [countP_fields_eq_countP_ID _ _ _ hafter.2.2.2, hops]
    exact (countP_upsertOperations _ _ (msg.Header.ID, t)
      (mem_messageOps_identity _ tid sid _ msg hmsg t)).2 (h3 _)

theorem Step.upserted_of_call (s : Step) (c : Option Call) (h : s.call = c)
    (hc : ∀ op, c ≠ some (Call.UpsertOperation op)) : s.upserted = none := by
  cases s with
  | enterGroup => rfl
  | plugin c1 r =>
    cases c1 <;> first | rfl | exact absurd h.symm (hc _)

/-- A failed `SubmitBroadcastBatch` at the end of a prefix of the group's calls
has no `UpsertOperation` before it. -/
theorem upserted_nil_before_submit {σ κ : Type} (bm : broadcastManager σ κ) (A : Ambient)
    (batch : Batch) (ref : Option Bytes32) (sid tid : String) (pre : List Step)
    (identity : String) (bb : BroadcastBatch) (r : Ret)
    (h : (pre ++ [Step.plugin (Call.SubmitBroadcastBatch identity bb) r]).map Step.call
      <+: (groupSteps bm A batch ref sid tid).map Step.call) :
    pre.filterMap Step.upserted = [] := by
  have hops : ∀ l : List Step,
      ¬ (l ++ [Step.plugin (Call.SubmitBroadcastBatch identity bb) r]).map Step.call
        <+: (opSteps bm tid sid batch.Payload.Messages).map Step.call := by
    intro l hl
    have hmem : some (Call.SubmitBroadcastBatch identity bb)
        ∈ (opSteps bm tid sid batch.Payload.Messages).map Step.call :=
      hl.subset (by simp [Step.call])
    rw [opSteps_eq] at hmem
    simp [Step.call] at hmem
  simp only [groupSteps, List.map_append, List.map_cons, List.map_nil, Step.call,
    List.cons_append, List.nil_append] at h
  rcases pre with _ | ⟨s1, _ | ⟨s2, _ | ⟨s3, _ | ⟨s4, rest⟩⟩⟩⟩
  · rfl
  · simp only [List.cons_append, List.nil_append, List.map_cons, List.cons_prefix_cons] at h
    simp [Step.upserted_of_call s1 _ h.1 (by simp)]
  · simp only [List.cons_append, List.nil_append, List.map_cons, List.cons_prefix_cons] at h
    simp [Step.upserted_of_call s1 _ h.1 (by simp),
      Step.upserted_of_call s2 _ h.2.1 (by simp)]
  · simp only [List.cons_append, List.nil_append, List.map_cons, List.cons_prefix_cons] at h
    simp [Step.upserted_of_call s1 _ h.1 (by simp),
      Step.upserted_of_call s2 _ h.2.1 (by simp), Step.upserted_of_call s3 _ h.2.2.1 (by simp)]
  · simp only [List.cons_append, List.map_cons, List.cons_prefix_cons] at h
    exact absurd (by simpa using h.2.2.2.2) (hops rest)

/-- C3: with the persistence plugin as the upsert store (so that UpsertTransaction
and UpdateBatch wrote to it) and `RunAsGroup` restoring the store on error, when
the `SubmitBroadcastBatch` of a dispatch fails with `e`, `dispatchBatch`
returns `e`, performs no `UpsertOperation`, and the store after the call is the
store before the call: no transaction record and no change of a batch's payload
reference remains. -/
theorem dispatchBatch_rolls_back_when_submit_fails {ε : Type} (b : BlockchainPlugin ε)
    (p : PublicstoragePlugin ε) (A : Ambient) (batch : Batch) (w : World (Store × ε))
    (identity : String) (bb : BroadcastBatch) (e : Err)
    (hsubmit : Step.plugin (Call.SubmitBroadcastBatch identity bb) (Ret.failed e)
      ∈ stepsSince w (dispatchBatch (storeManager b p) A batch w).world) :
    (dispatchBatch (storeManager b p) A batch w).err = some e ∧
    (stepsSince w (dispatchBatch (storeManager b p) A batch w).world).filterMap Step.upserted
      = [] ∧
    (dispatchBatch (storeManager b p) A batch w).world.st.1.transactions = w.st.1.transactions ∧
    (dispatchBatch (storeManager b p) A batch w).world.st.1.batches = w.st.1.batches ∧
    (dispatchBatch (storeManager b p) A batch w).world.st.1 = w.st.1 := by
  have herr : (dispatchBatch (storeManager b p) A batch w).err = some e ∧
      (stepsSince w (dispatchBatch (storeManager b p) A batch w).world).filterMap Step.upserted
        = [] := by
    cases hser : A.Marshal batch with
    | error err =>
      rw [(dispatchBatch_steps_of_error _ A batch w err hser).1] at hsubmit
      simp at hsubmit
    | ok payload =>
      obtain ⟨r, steps, ref, sid, tid, hlog, -, hcase⟩ :=
        dispatchBatch_log (storeManager b p) A batch w payload hser
      rw [stepsSince_append _ _ _ hlog] at hsubmit ⊢
      rcases hcase with ⟨e1, -, hsteps, -⟩ | ⟨-, hshape, hpre, -⟩
      · subst hsteps
        simp at hsubmit
      · have hmem : Step.plugin (Call.SubmitBroadcastBatch identity bb) (Ret.failed e) ∈ steps := by
          rcases List.mem_cons.1 hsubmit with h | h
          · cases h
          · exact h
        cases hd : (dispatchBatch (storeManager b p) A batch w).err with
        | none =>
          rw [hd] at hshape
          have := hshape _ hmem
          cases this
        | some e1 =>
          rw [hd] at hshape
          obtain ⟨pre, c1, hsteps, hok⟩ := hshape
          subst hsteps
          rcases List.mem_append.1 hmem with h | h
          · have := hok _ h
            cases this
          · simp only [List.mem_singleton, Step.plugin.injEq, Ret.failed.injEq] at h
            obtain ⟨hc, he⟩ := h
            subst hc he
            refine ⟨rfl, ?_⟩
            have hnil := upserted_nil_before_submit _ A batch ref sid tid pre identity bb _ hpre
            simp [List.filterMap_append, hnil, Step.upserted]
  have hstore := ((dispatchBatch_store b p A batch w).1 e herr.1).1
  exact ⟨herr.1, herr.2, by rw [hstore], by rw [hstore], hstore⟩

theorem dispatchBatch_rolls_back_when_submit_fails_witness :
    (dispatchBatch (storeManager (scriptedBlockchain 1) scriptedPublicstorage) exampleAmbient
      exampleBatch ⟨(exampleStore, 0), []⟩).err = some (Err.other "pop") ∧
    (stepsSince ⟨(exampleStore, 0), []⟩ (dispatchBatch (storeManager (scriptedBlockchain 1)
      scriptedPublicstorage) exampleAmbient exampleBatch
      ⟨(exampleStore, 0), []⟩).world).filterMap Step.upserted = [] ∧
    (dispatchBatch (storeManager (scriptedBlockchain 1) scriptedPublicstorage) exampleAmbient
      exampleBatch ⟨(exampleStore, 0), []⟩).world.st.1.transactions = [] ∧
    (dispatchBatch (storeManager (scriptedBlockchain 1) scriptedPublicstorage) exampleAmbient
      exampleBatch ⟨(exampleStore, 0), []⟩).world.st.1.batches = [exampleBatch] ∧
    (dispatchBatch (storeManager (scriptedBlockchain 1) scriptedPublicstorage) exampleAmbient
      exampleBatch ⟨(exampleStore, 0), []⟩).world.st.1 = exampleStore :=
  dispatchBatch_rolls_back_when_submit_fails (scriptedBlockchain 1) scriptedPublicstorage
    exampleAmbient exampleBatch ⟨(exampleStore, 0), []⟩ "0x12345" ⟨some 2, some 1, some 77⟩
    (Err.other "pop") (by decide)

/-- C2 (amended): with the persistence plugin as the idempotent upsert store
keyed on record identity (`hkeyed`), holding no transaction of another subject
hash under the batch's transaction identity, dispatch a batch and then dispatch
the same batch again.  When in the second call the batch serialises and the storage and
the ledger calls succeed, the second call returns no error, and the store then
holds exactly one transaction record with the batch's transaction identity
and, for every message of the batch, exactly one blockchain batch-pin operation
and exactly one public-storage broadcast operation.  Nothing is asked of the
first call: it may have returned an error. -/
theorem dispatchBatch_twice_converges {ε : Type} (b : BlockchainPlugin ε)
    (p : PublicstoragePlugin ε) (A : Ambient) (now : Nat) (batch : Batch)
    (w : World (Store × ε)) (hkeyed : w.st.1.keyedOnIdentity)
    (hhash : ∀ t ∈ w.st.1.transactions,
      t.ID = batch.Payload.TX.ID → t.Hash = (batchTransaction A batch).Hash)
    (hser : ∃ payload,
      A.Marshal (dispatchBatch (storeManager b p) A batch w).batch = Except.ok payload)
    (hext : ∀ s ∈ stepsSince (dispatchBatch (storeManager b p) A batch w).world
        (redispatch (storeManager b p) A now (dispatchBatch (storeManager b p) A batch w)).world,
      s.isExternal = true → s.ok = true) :
    (redispatch (storeManager b p) A now (dispatchBatch (storeManager b p) A batch w)).err
      = none ∧
    (redispatch (storeManager b p) A now
      (dispatchBatch (storeManager b p) A batch w)).world.st.1.countTransactions
        batch.Payload.TX.ID = 1 ∧
    ∀ msg ∈ batch.Payload.Messages,
      (redispatch (storeManager b p) A now
        (dispatchBatch (storeManager b p) A batch w)).world.st.1.countOperations
          msg.Header.ID OpType.OpTypeBlockchainBatchPin = 1 ∧
      (redispatch (storeManager b p) A now
        (dispatchBatch (storeManager b p) A batch w)).world.st.1.countOperations
          msg.Header.ID OpType.OpTypePublicStorageBatchBroadcast = 1 := by
  obtain ⟨ref, hbatch⟩ := dispatchBatch_batch (storeManager b p) A batch w
  have hready := dispatchBatch_store_ready b p A batch w
    (Store.readyFor_of_keyed _ _ _ hkeyed hhash)
  generalize dispatchBatch (storeManager b p) A batch w = d1 at *
  have hready2 : d1.world.st.1.readyFor d1.batch.Payload.TX.ID
      (batchTransaction { A with Now := now } d1.batch).Hash := by
    rw [hbatch]
    exact hready
  obtain ⟨herr, htx, hops⟩ := dispatchBatch_store_converges b p { A with Now := now } d1.batch
    d1.world hready2 hser hext
  have hid : d1.batch.Payload.TX.ID = batch.Payload.TX.ID := by rw [hbatch]
  have hmsgs : d1.batch.Payload.Messages = batch.Payload.Messages := by rw [hbatch]
  rw [hid] at htx
  rw [hmsgs] at hops
  exact ⟨herr, htx, fun msg hmsg => ⟨hops msg hmsg _, hops msg hmsg _⟩⟩

theorem dispatchBatch_twice_converges_witness :
    (redispatch (storeManager (scriptedBlockchain 1) scriptedPublicstorage) exampleAmbient 6
      (dispatchBatch (storeManager (scriptedBlockchain 1) scriptedPublicstorage)
        exampleAmbient exampleBatch ⟨(exampleStore, 0), []⟩)).err = none ∧
    (redispatch (storeManager (scriptedBlockchain 1) scriptedPublicstorage) exampleAmbient 6
      (dispatchBatch (storeManager (scriptedBlockchain 1) scriptedPublicstorage)
        exampleAmbient exampleBatch ⟨(exampleStore, 0), []⟩)).world.st.1.countTransactions
        exampleBatch.Payload.TX.ID = 1 ∧
    ∀ msg ∈ exampleBatch.Payload.Messages,
      (redispatch (storeManager (scriptedBlockchain 1) scriptedPublicstorage) exampleAmbient 6
        (dispatchBatch (storeManager (scriptedBlockchain 1) scriptedPublicstorage)
          exampleAmbient exampleBatch ⟨(exampleStore, 0), []⟩)).world.st.1.countOperations
          msg.Header.ID OpType.OpTypeBlockchainBatchPin = 1 ∧
      (redispatch (storeManager (scriptedBlockchain 1) scriptedPublicstorage) exampleAmbient 6
        (dispatchBatch (storeManager (scriptedBlockchain 1) scriptedPublicstorage)
          exampleAmbient exampleBatch ⟨(exampleStore, 0), []⟩)).world.st.1.countOperations
          msg.Header.ID OpType.OpTypePublicStorageBatchBroadcast = 1 :=
  dispatchBatch_twice_converges (scriptedBlockchain 1) scriptedPublicstorage exampleAmbient 6
    exampleBatch ⟨(exampleStore, 0), []⟩
    ⟨List.nodup_nil, List.nodup_nil, fun _ h => absurd h (List.not_mem_nil _)⟩
    (fun _ h => absurd h (List.not_mem_nil _)) ⟨[2], rfl⟩ (by decide)

/-- C2 as stated fails in three ways.  When the ledger refuses the second
submission, the first dispatch returns no error and the second dispatch of the
same batch returns the ledger's error.  When the store holds a transaction of
another subject under the batch's transaction identity, the second dispatch
returns the conflict of the transaction upsert.  When the batch does not
serialise, the second dispatch returns the serialisation error. -/
theorem redispatch_returns_error :
    ((dispatchBatch (storeManager (scriptedBlockchain 3) scriptedPublicstorage) exampleAmbient
        exampleBatch ⟨(exampleStore, 0), []⟩).err = none ∧
     (redispatch (storeManager (scriptedBlockchain 3) scriptedPublicstorage) exampleAmbient 6
        (dispatchBatch (storeManager (scriptedBlockchain 3) scriptedPublicstorage)
          exampleAmbient exampleBatch ⟨(exampleStore, 0), []⟩)).err
        = some (Err.other "pop")) ∧
    (redispatch (storeManager (scriptedBlockchain 1000) scriptedPublicstorage) exampleAmbient 6
        (dispatchBatch (storeManager (scriptedBlockchain 1000) scriptedPublicstorage)
          exampleAmbient exampleBatch ⟨(conflictingStore, 0), []⟩)).err
        = some (Err.other "transaction exists with another hash") ∧
    (redispatch (storeManager (scriptedBlockchain 1000) scriptedPublicstorage) failingAmbient 6
        (dispatchBatch (storeManager (scriptedBlockchain 1000) scriptedPublicstorage)
          failingAmbient exampleBatch ⟨(exampleStore, 0), []⟩)).err
        = some (Err.MsgSerializationFailed (Err.other "invalid character")) := by
  decide

end Firefly
